import Mathlib

/-!
Verification of the schema-conformance audit engine in
`scripts/audit_api_fields.py`.

The Python source is shallowly embedded: JSON payloads and OpenAPI schema
nodes become inductive types, Python dicts become association lists with
insertion-order-preserving update, Python sets become duplicate-free lists,
and the recursive schema walk is embedded with an explicit fuel parameter
(the source recursion has no fuel; termination is established separately as
a theorem about sufficient fuel).  Python string operations are modelled by
executable functions over the character lists of Lean strings.
-/

/-- Python `sub in s` (substring containment) on character lists. -/
def listContainsSub (n : List Char) : List Char → Bool
  | [] => n.isPrefixOf []
  | c :: t => n.isPrefixOf (c :: t) || listContainsSub n t

/-- Python `sub in s` for strings. -/
def str_contains (s sub : String) : Bool :=
  listContainsSub sub.data s.data

/-- Python `s.startswith(pre)`. -/
def pyStartsWith (s pre : String) : Bool :=
  pre.data.isPrefixOf s.data

/-- Python `s.endswith(suf)`. -/
def pyEndsWith (s suf : String) : Bool :=
  suf.data.isSuffixOf s.data

/-- Auxiliary splitter: splits a character list at every occurrence of the
nonempty separator `c0 :: sepRest`, left to right, non-overlapping, like
Python `str.split(sep)`.  The fuel argument is structural so the function
evaluates in the kernel; every step consumes at least one input character,
so fuel equal to the input length never runs out. -/
def splitOnListAux (c0 : Char) (sepRest : List Char) : Nat → List Char → List Char → List (List Char)
  | _, [], acc => [acc.reverse]
  | 0, l, acc => [acc.reverse ++ l]
  | fuel + 1, c :: t, acc =>
    if (c0 :: sepRest).isPrefixOf (c :: t) then
      acc.reverse :: splitOnListAux c0 sepRest fuel ((c :: t).drop (sepRest.length + 1)) []
    else
      splitOnListAux c0 sepRest fuel t (c :: acc)

/-- Python `s.split(sep)` for a nonempty separator (the source never splits
on an empty separator, which Python rejects). -/
def pySplitOn (s sep : String) : List String :=
  match sep.data with
  | [] => [s]
  | c0 :: rest => (splitOnListAux c0 rest s.data.length s.data []).map String.mk

/-- Python dict lookup `d.get(k)` on an association list. -/
def dget {α : Type} : List (String × α) → String → Option α
  | [], _ => none
  | (k, v) :: rest, key => if k = key then some v else dget rest key

/-- Python dict assignment `d[k] = v`: replace in place if the key exists
(keeping its position, like a Python dict), else append. -/
def upsert {α : Type} (key : String) (v : α) : List (String × α) → List (String × α)
  | [] => [(key, v)]
  | (k, w) :: rest => if k = key then (key, v) :: rest else (k, w) :: upsert key v rest

/-- Python set `s.add(x)` on a duplicate-free list. -/
def sinsert (x : String) (s : List String) : List String :=
  if x ∈ s then s else s ++ [x]

/-- Python `a or b` on optional strings, where `None` and the empty string
are falsy. -/
def pyOrStr (a b : Option String) : Option String :=
  match a with
  | some s => if s = "" then b else some s
  | none => b

/-- Python `a or b` where the left operand is an optional string and the
fallback is a plain string (used for `seeds.get("height") or "0"`). -/
def pyOrStrD (a : Option String) (b : String) : String :=
  match a with
  | some s => if s = "" then b else s
  | none => b

/-- JSON values as decoded by `json.loads`.  Python distinguishes `int`
from `float`; floating point numbers are modelled opaquely by their decimal
rendering (no claim depends on a float value). -/
inductive Json : Type where
  | null : Json
  | bool (b : Bool) : Json
  | int (n : Int) : Json
  | num (repr : String) : Json
  | str (s : String) : Json
  | arr (elems : List Json) : Json
  | obj (fields : List (String × Json)) : Json

/-- Python dict access `j.get(k)`, returning `none` when `j` is not a dict
(the source always guards with `isinstance(j, dict)`, yielding the same
outcome). -/
def Json.get (j : Json) (k : String) : Option Json :=
  match j with
  | .obj fields => dget fields k
  | _ => none

/-- Python truthiness of a decoded JSON value (`if x:`).  The truthiness of
a float is approximated on its rendering; no claim exercises it. -/
def pyTruthy : Json → Bool
  | .null => false
  | .bool b => b
  | .int n => n ≠ 0
  | .num r => ¬(r = "0" ∨ r = "0.0" ∨ r = "-0.0")
  | .str s => s ≠ ""
  | .arr l => !l.isEmpty
  | .obj f => !f.isEmpty

/-- Python `a or b` over optional JSON values (`t0.get("address") or
t0.get("id")`): a missing key yields `None`, and a falsy value falls
through to the right operand. -/
def jsonOr (a b : Option Json) : Option Json :=
  match a with
  | some v => if pyTruthy v then some v else b
  | none => b

/-- Python `str(value)` for a decoded JSON value, as used on
`a0.get("height")`.  Container renderings are modelled by placeholder
strings: the source only ever stringifies scalar heights. -/
def py_str : Json → String
  | .null => "None"
  | .bool b => if b then "True" else "False"
  | .int n => toString n
  | .num r => r
  | .str s => s
  | .arr _ => "<list>"
  | .obj _ => "<dict>"

/-- `ExpectedField` dataclass (audit_api_fields.py lines 95-101). -/
structure ExpectedField : Type where
  path : String
  expected_type : String
  required : Bool
  fmt : Option String := none
  description : Option String := none
deriving DecidableEq, Repr

/-- `ObservedField` dataclass (audit_api_fields.py lines 104-108). -/
structure ObservedField : Type where
  path : String
  observed_type : String
  sample : Option String := none
deriving DecidableEq, Repr

/-- The seed dictionary built by `seed_values` (lines 320-330). -/
structure Seeds : Type where
  address : Option String := none
  height : Option String := none
  tx_id : Option String := none
  token : Option String := none
  nft_type : Option String := none
  nft_item_id : Option String := none
  identifier : Option String := none
  evm_hash : Option String := none
  evm_token_address : Option String := none
deriving DecidableEq, Repr

mutual
/-- A schema node of the specification document, keeping exactly the keys
`collect_expected_fields` and `schema_type` read (audit_api_fields.py
lines 82-92 and 111-182).  Each key is `Option`al to model key absence;
the source's `isinstance` guards make ill-typed values behave as absent in
the places the claims exercise. -/
inductive SchemaNode : Type where
  | mk :
      (ref : Option String) →
      (allOf : Option (List SchemaNode)) →
      (type : Option String) →
      (properties : Option (List (String × SchemaNode))) →
      (required : Option (List String)) →
      (additionalProperties : APValue) →
      (items : Option SchemaNode) →
      (format : Option String) →
      (description : Option String) → SchemaNode

/-- The value found under an `additionalProperties` key: the key may be
absent, `false`, `null`, `true`, or a sub-schema. -/
inductive APValue : Type where
  | absent : APValue
  | apFalse : APValue
  | apNull : APValue
  | apTrue : APValue
  | apSchema : SchemaNode → APValue
end

def SchemaNode.ref : SchemaNode → Option String
  | .mk r _ _ _ _ _ _ _ _ => r

def SchemaNode.allOf : SchemaNode → Option (List SchemaNode)
  | .mk _ a _ _ _ _ _ _ _ => a

def SchemaNode.type : SchemaNode → Option String
  | .mk _ _ t _ _ _ _ _ _ => t

def SchemaNode.properties : SchemaNode → Option (List (String × SchemaNode))
  | .mk _ _ _ p _ _ _ _ _ => p

def SchemaNode.required : SchemaNode → Option (List String)
  | .mk _ _ _ _ r _ _ _ _ => r

def SchemaNode.additionalProperties : SchemaNode → APValue
  | .mk _ _ _ _ _ ap _ _ _ => ap

def SchemaNode.items : SchemaNode → Option SchemaNode
  | .mk _ _ _ _ _ _ it _ _ => it

def SchemaNode.format : SchemaNode → Option String
  | .mk _ _ _ _ _ _ _ f _ => f

def SchemaNode.description : SchemaNode → Option String
  | .mk _ _ _ _ _ _ _ _ d => d

/-- Whether the `additionalProperties` key is present at all (Python's
`"additionalProperties" in schema`). -/
def APValue.isPresent : APValue → Bool
  | .absent => false
  | _ => true

/-- `schema_type` (lines 82-92): declared type, else inferred from the
presence of `properties`/`additionalProperties`, `items`, `allOf`. -/
def schema_type (schema : SchemaNode) : String :=
  match schema.type with
  | some t => t
  | none =>
    if schema.properties.isSome || schema.additionalProperties.isPresent then "object"
    else if schema.items.isSome then "array"
    else if schema.allOf.isSome then "object"
    else "unknown"

/-- `resolve_ref` (lines 72-79).  The specification document is modelled by
the association list from local reference strings to the schema nodes their
JSON-pointer lookup yields; a reference that does not start with `#/` or
has no target raises in the source, modelled by `none`. -/
def resolve_ref (spec : List (String × SchemaNode)) (ref : String) : Option SchemaNode :=
  if pyStartsWith ref "#/" then dget spec ref else none

/-- The mutable state threaded through `collect_expected_fields`: the `out`
dict, the `open_prefixes` set and the `visited_refs` set (a single shared
set per top-level call, exactly as the source passes one mutable set down
the whole recursion). -/
structure CState : Type where
  out : List (String × ExpectedField)
  open_prefixes : List String
  visited_refs : List String
deriving DecidableEq, Repr

/-- Result of the embedded schema walk: normal completion, a failed
reference lookup (a raised exception in the source), or fuel exhaustion
(an artifact of the embedding only; sufficient fuel never exhausts, proved
below). -/
inductive CRes : Type where
  | ok : CState → CRes
  | refError : String → CRes
  | outOfFuel : CRes
deriving DecidableEq, Repr

/-- Recording/merging one field at `pfx` into `out` (lines 139-155). -/
def record_expected (st : CState) (pfx : String) (t : String) (required : Bool)
    (fmt : Option String) (desc : Option String) : CState :=
  match dget st.out pfx with
  | none => { st with out := upsert pfx (ExpectedField.mk pfx t required fmt desc) st.out }
  | some existing =>
    let merged := ExpectedField.mk pfx
      (if existing.expected_type ≠ "unknown" then existing.expected_type else t)
      (existing.required || required)
      (pyOrStr existing.fmt fmt)
      (pyOrStr existing.description desc)
    { st with out := upsert pfx merged st.out }

/-- The `for sub in schema["allOf"]` loop (lines 129-133), parameterized by
the recursive call. -/
def run_allOf (rec : SchemaNode → String → Bool → CState → CRes) :
    List SchemaNode → String → Bool → CState → CRes
  | [], _, _, st => .ok st
  | sub :: rest, pfx, req, st =>
    match rec sub pfx req st with
    | .ok st2 => run_allOf rec rest pfx req st2
    | e => e

/-- The `for name, child in props.items()` loop (lines 162-166),
parameterized by the recursive call. -/
def run_props (rec : SchemaNode → String → Bool → CState → CRes) :
    List (String × SchemaNode) → String → List String → CState → CRes
  | [], _, _, st => .ok st
  | (name, child) :: rest, pfx, req_list, st =>
    match rec child (if pfx ≠ "" then pfx ++ "." ++ name else name) (req_list.contains name) st with
    | .ok st2 => run_props rec rest pfx req_list st2
    | e => e

/-- The non-reference, non-`allOf` part of `collect_expected_fields`
(lines 135-182), parameterized by the recursive call: record the node,
recurse into object properties and a schematic `additionalProperties`, and
recurse into array items. -/
def collect_type_body (rec : SchemaNode → String → Bool → CState → CRes)
    (schema : SchemaNode) (pfx : String) (required : Bool) (st : CState) : CRes :=
  let t := schema_type schema
  let st1 :=
    if pfx ≠ "" then record_expected st pfx t required schema.format schema.description
    else st
  let objRes : CRes :=
    if t = "object" then
      let props := schema.properties.getD []
      let req_list := schema.required.getD []
      match run_props rec props pfx req_list st1 with
      | .ok st2 =>
        match schema.additionalProperties with
        | .apTrue =>
          .ok (if pfx ≠ "" then { st2 with open_prefixes := sinsert pfx st2.open_prefixes } else st2)
        | .apSchema ap =>
          let st3 :=
            if pfx ≠ "" then { st2 with open_prefixes := sinsert pfx st2.open_prefixes } else st2
          if pfx ≠ "" then rec ap (pfx ++ ".*") false st3
          else .ok st3
        | _ => .ok st2
      | e => e
    else .ok st1
  match objRes with
  | .ok st4 =>
    if t = "array" then
      match schema.items with
      | some items => rec items (if pfx ≠ "" then pfx ++ "[]" else "[]") false st4
      | none => .ok st4
    else .ok st4
  | e => e

/-- `collect_expected_fields` (lines 111-182), embedded with a structural
fuel argument consumed once per recursive schema-node visit; the source
recursion carries no fuel, and the termination theorem below shows that any
fuel above an explicit bound never exhausts. -/
def collect_expected_fields (spec : List (String × SchemaNode)) :
    Nat → SchemaNode → String → Bool → CState → CRes
  | 0, _, _, _, _ => .outOfFuel
  | fuel + 1, schema, pfx, required, st =>
    match schema.ref with
    | some ref =>
      if ref ∈ st.visited_refs then .ok st
      else
        let st1 := { st with visited_refs := sinsert ref st.visited_refs }
        match resolve_ref spec ref with
        | none => .refError ref
        | some resolved => collect_expected_fields spec fuel resolved pfx required st1
    | none =>
      match schema.allOf with
      | some subs => run_allOf (collect_expected_fields spec fuel) subs pfx required st
      | none => collect_type_body (collect_expected_fields spec fuel) schema pfx required st

/-- `_type_of_value` (lines 185-200).  Every value `json.loads` can produce
is covered by the `Json` type, so the source's final `"unknown"` branch is
unreachable here. -/
def type_of_value : Json → String
  | .null => "null"
  | .bool _ => "boolean"
  | .int _ => "integer"
  | .num _ => "number"
  | .str _ => "string"
  | .arr _ => "array"
  | .obj _ => "object"

/-- `_sample_value` (lines 203-221). -/
def sample_value : Json → String
  | .null => "null"
  | .bool b => if b then "True" else "False"
  | .int n => toString n
  | .num r => r
  | .str s => if s.length > 120 then String.mk (s.data.take 117) ++ "..." else s
  | .arr v => "array(len=" ++ toString v.length ++ ")"
  | .obj v =>
    let keys := v.map Prod.fst
    let keys_s := String.intercalate "," (keys.take 8) ++ (if keys.length > 8 then ",..." else "")
    "object(keys=" ++ keys_s ++ ")"

/-- The mutable state threaded through `collect_observed_fields`: the `out`
dict and the `array_lengths` dict. -/
structure OState : Type where
  out : List (String × ObservedField)
  array_lengths : List (String × Nat)
deriving DecidableEq, Repr

/-- The `for k, v in payload.items()` loop (lines 234-239), parameterized
by the recursive call.  JSON object keys are always strings, so the
source's `isinstance(k, str)` guard never skips. -/
def obs_children (rec : Json → String → OState → OState) :
    List (String × Json) → String → OState → OState
  | [], _, st => st
  | (k, v) :: rest, pfx, st =>
    let child_path := if pfx ≠ "" then pfx ++ "." ++ k else k
    obs_children rec rest pfx (rec v child_path st)

/-- `collect_observed_fields` (lines 224-245) with a structural fuel
argument consumed once per visited value; `collect_observed_fields` below
instantiates it with fuel that can never exhaust (every child is
structurally smaller than its parent). -/
def collect_observed_go : Nat → Json → String → OState → OState
  | 0, _, _, st => st
  | fuel + 1, payload, pfx, st =>
    let t := type_of_value payload
    let st1 :=
      if pfx ≠ "" then
        { st with out := upsert pfx (ObservedField.mk pfx t (some (sample_value payload))) st.out }
      else st
    match payload with
    | .obj fields => obs_children (collect_observed_go fuel) fields pfx st1
    | .arr elems =>
      let st2 :=
        if pfx ≠ "" then { st1 with array_lengths := upsert pfx elems.length st1.array_lengths }
        else st1
      match elems with
      | [] => st2
      | e :: _ => collect_observed_go fuel e (if pfx ≠ "" then pfx ++ "[]" else "[]") st2
    | _ => st1

mutual
/-- Structural size of a JSON value, used as fuel for the embedded
flattener: every recursive call of the source is on a strictly smaller
value, so this fuel never exhausts. -/
def jsize : Json → Nat
  | .null => 1
  | .bool _ => 1
  | .int _ => 1
  | .num _ => 1
  | .str _ => 1
  | .arr elems => 1 + jsizeL elems
  | .obj fields => 1 + jsizeF fields

/-- Size of a JSON array body. -/
def jsizeL : List Json → Nat
  | [] => 1
  | j :: t => 1 + jsize j + jsizeL t

/-- Size of a JSON object body. -/
def jsizeF : List (String × Json) → Nat
  | [] => 1
  | (_, j) :: t => 1 + jsize j + jsizeF t
end

/-- `collect_observed_fields` (lines 224-245): the fuel `jsize payload`
strictly dominates the recursion depth, so the embedding never exhausts. -/
def collect_observed_fields (payload : Json) (pfx : String) (st : OState) : OState :=
  collect_observed_go (jsize payload) payload pfx st

/-- `is_allowed_extra` (lines 248-254). -/
def is_allowed_extra (path : String) (open_prefixes : List String) : Bool :=
  open_prefixes.any (fun p => path == p || pyStartsWith path (p ++ ".") || pyStartsWith path (p ++ "[]"))

/-- `expected_allows_observed` (lines 257-265). -/
def expected_allows_observed (expected_type observed_type : String) : Bool :=
  if expected_type = "unknown" then true
  else if expected_type = observed_type then true
  else if expected_type = "number" ∧ observed_type = "integer" then true
  else false

/-- `array_prefix_for` — the helper closure in `audit_endpoint`
(lines 672-676): `None` when the path has no `[]` marker, else the text
before the first marker. -/
def array_prefix_for (p : String) : Option String :=
  if str_contains p "[]" then some ((pySplitOn p "[]").headD "") else none

/-- The per-field status computation in the `audit_endpoint` loop
(lines 678-709): absent fields become UNVERIFIED_EMPTY_ARRAY or MISSING
depending on the truthy array prefix having recorded length 0; present
fields become NULL, OK or TYPE_MISMATCH. -/
def classify_status (fpath : String) (ef : ExpectedField)
    (observed : List (String × ObservedField)) (array_lengths : List (String × Nat)) : String :=
  match dget observed fpath with
  | none =>
    match array_prefix_for fpath with
    | some ap =>
      if ap ≠ "" ∧ dget array_lengths ap = some 0 then "UNVERIFIED_EMPTY_ARRAY" else "MISSING"
    | none => "MISSING"
  | some obs =>
    if obs.observed_type = "null" then "NULL"
    else if expected_allows_observed ef.expected_type obs.observed_type then "OK"
    else "TYPE_MISMATCH"

/-- `[A-Za-z0-9_]` character class. -/
def isWordChar (c : Char) : Bool := c.isAlpha || c.isDigit || c = '_'

/-- `[0-9a-f]` character class. -/
def isHexLowerChar (c : Char) : Bool := c.isDigit || ('a' ≤ c && c ≤ 'f')

/-- A regex `.` (any character but a newline). -/
def reAnyChar (c : Char) : Bool := c ≠ '\n'

/-- Exactly `n` lowercase-hex characters. -/
def hex_fixed (n : Nat) (l : List Char) : Bool := l.length = n && l.all isHexLowerChar

/-- `FLOW_ADDRESS_RE` (line 37): `(0x)?` then 16 lowercase-hex characters,
anchored at both ends. -/
def FLOW_ADDRESS_RE_match (s : String) : Bool :=
  (match s.data with
   | '0' :: 'x' :: rest => hex_fixed 16 rest
   | _ => false) || hex_fixed 16 s.data

/-- `FLOW_ID_64_RE` (line 38): exactly 64 lowercase-hex characters. -/
def FLOW_ID_64_RE_match (s : String) : Bool := hex_fixed 64 s.data

/-- `EVM_HASH_RE` (line 39): `(0x)?` then 64 lowercase-hex characters. -/
def EVM_HASH_RE_match (s : String) : Bool :=
  (match s.data with
   | '0' :: 'x' :: rest => hex_fixed 64 rest
   | _ => false) || hex_fixed 64 s.data

/-- Tail of `CADENCE_TYPE_RE`: the pattern fragment
`[A-Za-z0-9_]+(\\.[A-Za-z0-9_]+)?$`, where `\\` in the source's raw string
denotes an escaped literal backslash and the unescaped `.` matches any
character but a newline.  The word run is maximal, which is exact here
because a backslash is not a word character. -/
def cadenceTail (l : List Char) : Bool :=
  let w := l.takeWhile isWordChar
  let r := l.drop w.length
  !w.isEmpty &&
    (r.isEmpty ||
      (match r with
       | '\\' :: c :: r2 => reAnyChar c && !r2.isEmpty && r2.all isWordChar
       | _ => false))

/-- `CADENCE_TYPE_RE` (line 40).  The source compiles the RAW string
`r"^A\\.[0-9a-f]{16}\\.[A-Za-z0-9_]+(\\.[A-Za-z0-9_]+)?$"`; inside a raw
string each `\\` stays two characters, which the regex engine reads as an
escaped LITERAL backslash, followed by `.` matching any character.  The
compiled pattern therefore requires a real backslash plus an arbitrary
character where a dot separator was presumably intended. -/
def CADENCE_TYPE_RE_match (s : String) : Bool :=
  match s.data with
  | 'A' :: '\\' :: c0 :: rest =>
    reAnyChar c0 && hex_fixed 16 (rest.take 16) &&
      (match rest.drop 16 with
       | '\\' :: c1 :: r => reAnyChar c1 && cadenceTail r
       | _ => false)
  | _ => false

/-- Two digits read as a number within an inclusive range. -/
def iso_two_digits (a b : Char) (lo hi : Nat) : Bool :=
  a.isDigit && b.isDigit &&
    (lo ≤ (a.toNat - 48) * 10 + (b.toNat - 48) && (a.toNat - 48) * 10 + (b.toNat - 48) ≤ hi)

/-- Modelled from the spec: `rfc3339_ok` (lines 538-548) delegates to
Python `datetime.fromisoformat` after normalising a trailing `Z`; that
library parser is not part of the repository, so it is modelled by a basic
ISO-8601 date(-time) well-formedness check.  No claim settled below
depends on its value. -/
def rfc3339_ok (s : String) : Bool :=
  let s2 := if pyEndsWith s "Z" then String.mk (s.data.dropLast ++ "+00:00".data) else s
  match s2.data with
  | y1 :: y2 :: y3 :: y4 :: '-' :: m1 :: m2 :: '-' :: d1 :: d2 :: rest =>
    y1.isDigit && y2.isDigit && y3.isDigit && y4.isDigit &&
      iso_two_digits m1 m2 1 12 && iso_two_digits d1 d2 1 31 &&
      (rest.isEmpty ||
        (match rest with
         | sepc :: _ => sepc = 'T' || sepc = ' '
         | [] => false))
  | _ => false

/-- `semantic_warnings` (lines 551-585). -/
def semantic_warnings (field : ExpectedField) (observed : Option ObservedField) : List String :=
  match observed with
  | none => []
  | some obs =>
    if obs.observed_type ≠ "string" then []
    else
      let key := (pySplitOn field.path ".").getLastD ""
      let v := obs.sample.getD ""
      let warnings : List String := []
      let warnings :=
        if (field.fmt = some "date-time" ∨
              key ∈ ["timestamp", "created_at", "updated_at", "valid_from", "valid_to"]) ∧
            (v ≠ "" ∧ v ≠ "null" ∧ rfc3339_ok v = false)
        then warnings ++ ["timestamp_not_rfc3339"] else warnings
      let warnings :=
        if key ∈ ["address", "payer", "proposer", "primaryAddress", "secondaryAddress", "owner"] ∧
            (v ≠ "" ∧ v ≠ "null" ∧ FLOW_ADDRESS_RE_match v = false)
        then warnings ++ ["address_format"] else warnings
      let warnings :=
        if key ∈ ["block_id", "collection_id", "transaction_id"] ∧
            (v ≠ "" ∧ v ≠ "null" ∧ FLOW_ID_64_RE_match v = false)
        then warnings ++ ["flow_id_format"] else warnings
      let warnings :=
        if key ∈ ["hash", "transaction_hash", "tx_hash", "evm_hash"] ∧
            (v ≠ "" ∧ v ≠ "null" ∧ EVM_HASH_RE_match v = false)
        then warnings ++ ["evm_hash_format"] else warnings
      let warnings :=
        if key ∈ ["token", "identifier", "nft_type"] ∧
            (v ≠ "" ∧ v ≠ "null" ∧ pyStartsWith v "A." = false)
        then warnings ++ ["cadence_type_expected"] else warnings
      let warnings :=
        if key ∈ ["token", "identifier", "nft_type"] ∧
            (v ≠ "" ∧ v ≠ "null" ∧ pyStartsWith v "A." = true ∧ CADENCE_TYPE_RE_match v = false)
        then warnings ++ ["cadence_type_format"] else warnings
      warnings

mutual
/-- Structural size of a schema node, used for the termination measure of
the embedded schema walk. -/
def ssize : SchemaNode → Nat
  | .mk _ a _ p _ ap it _ _ => 1 + ssizeOL a + ssizeOPL p + ssizeAP ap + ssizeO it

/-- Size of an optional schema list. -/
def ssizeOL : Option (List SchemaNode) → Nat
  | none => 1
  | some l => 1 + ssizeL l

/-- Size of a schema list. -/
def ssizeL : List SchemaNode → Nat
  | [] => 1
  | s :: t => 1 + ssize s + ssizeL t

/-- Size of an optional property list. -/
def ssizeOPL : Option (List (String × SchemaNode)) → Nat
  | none => 1
  | some l => 1 + ssizePL l

/-- Size of a property list. -/
def ssizePL : List (String × SchemaNode) → Nat
  | [] => 1
  | (_, s) :: t => 1 + ssize s + ssizePL t

/-- Size of an `additionalProperties` value. -/
def ssizeAP : APValue → Nat
  | .absent => 1
  | .apFalse => 1
  | .apNull => 1
  | .apTrue => 1
  | .apSchema s => 1 + ssize s

/-- Size of an optional schema node. -/
def ssizeO : Option SchemaNode → Nat
  | none => 1
  | some s => 1 + ssize s
end

/-- The reference names bound by the specification document. -/
def env_ref_names (spec : List (String × SchemaNode)) : List String := spec.map Prod.fst

/-- How many references of the document are not yet in the visited set. -/
def unvisited (spec : List (String × SchemaNode)) (visited : List String) : Nat :=
  ((env_ref_names spec).filter (fun r => !(decide (r ∈ visited)))).length

/-- An upper bound on the size of any schema bound in the document. -/
def maxEnvSize (spec : List (String × SchemaNode)) : Nat :=
  (spec.map (fun kv => ssize kv.2)).foldr Nat.max 0

/-- The termination measure of the embedded schema walk: fuel above this
measure never exhausts. -/
def cef_measure (spec : List (String × SchemaNode)) (visited : List String) (n : Nat) : Nat :=
  unvisited spec visited * (1 + maxEnvSize spec) + n

/-- Uppercase hex digit. -/
def hexDigitUpper (n : Nat) : Char := Char.ofNat (if n < 10 then 48 + n else 55 + n)

/-- A byte as two uppercase hex characters. -/
def hexByteUpper (b : Nat) : String := String.mk [hexDigitUpper (b / 16), hexDigitUpper (b % 16)]

/-- UTF-8 encoding of one character, as byte values. -/
def utf8EncodeCharM (c : Char) : List Nat :=
  let n := c.toNat
  if n < 128 then [n]
  else if n < 2048 then [192 + n / 64, 128 + n % 64]
  else if n < 65536 then [224 + n / 4096, 128 + (n / 64) % 64, 128 + n % 64]
  else [240 + n / 262144, 128 + (n / 4096) % 64, 128 + (n / 64) % 64, 128 + n % 64]

/-- `urllib.parse.quote(s, safe="")`: keep unreserved characters
(letters, digits, `_`, `.`, `-`, `~`), percent-encode every other UTF-8
byte with uppercase hex. -/
def urlquote (s : String) : String :=
  String.join (s.data.map (fun c =>
    if c.isAlphanum || c = '_' || c = '.' || c = '-' || c = '~' then String.singleton c
    else String.join ((utf8EncodeCharM c).map (fun b => "%" ++ hexByteUpper b))))

/-- Python `s.replace(old, new)` for a nonempty `old`
(equal to `new.join(s.split(old))`). -/
def pyReplace (s old new : String) : String :=
  String.intercalate new (pySplitOn s old)

/-- The `{name}` segments of a path template, in order
(`fill_path_params`, lines 426-431). -/
def path_params (path : String) : List String :=
  ((pySplitOn path "/").filter (fun seg => pyStartsWith seg "\x7b" && pyEndsWith seg "\x7d")).map
    (fun seg => String.mk (seg.data.drop 1).dropLast)

/-- The `defaults` table of `fill_path_params` (lines 435-449):
seed-backed entries plus fixed fallbacks; an unknown name yields `None`. -/
def path_defaults (seeds : Seeds) (p : String) : Option String :=
  if p = "address" then seeds.address
  else if p = "height" then seeds.height
  else if p = "id" then seeds.tx_id
  else if p = "transaction_id" then seeds.tx_id
  else if p = "token" then seeds.token
  else if p = "nft_type" then seeds.nft_type
  else if p = "identifier" then seeds.identifier
  else if p = "hash" then seeds.evm_hash
  else if p = "epoch" then some "current"
  else if p = "role" then some "collection"
  else if p = "node_id" then some "0"
  else if p = "timescale" then some "daily"
  else none

/-- The value resolved for one path parameter `p` (lines 453-461): the
`defaults` table, then the context-aware overrides for the ambiguous
`id`/`address` parameters. -/
def fill_param_value (path : String) (seeds : Seeds) (p : String) : Option String :=
  let val0 := path_defaults seeds p
  let val1 :=
    if p = "id" then
      let v1 :=
        if str_contains path "/contract/\x7bidentifier\x7d/\x7bid\x7d" then seeds.identifier
        else val0
      if str_contains path "/nft/\x7bnft_type\x7d/item/\x7bid\x7d" then seeds.nft_item_id
      else v1
    else val0
  if p = "address" && str_contains path "/flow/v1/evm/token/\x7baddress\x7d" then
    seeds.evm_token_address
  else val1

/-- The `for p in params` loop of `fill_path_params` (lines 452-465): the
first unresolvable parameter aborts with the original path and a
missing-path-param reason. -/
def fill_loop (path : String) (seeds : Seeds) : List String → String → String × Bool × Option String
  | [], filled => (filled, true, none)
  | p :: rest, filled =>
    match fill_param_value path seeds p with
    | none => (path, false, some ("missing path param " ++ p))
    | some v => fill_loop path seeds rest (pyReplace filled ("\x7b" ++ p ++ "\x7d") (urlquote v))

/-- `fill_path_params` (lines 425-465). -/
def fill_path_params (path : String) (seeds : Seeds) : String × Bool × Option String :=
  let params := path_params path
  if params.isEmpty then (path, true, none)
  else fill_loop path seeds params path

/-- One declared parameter of an operation, keeping the keys `build_query`
reads (lines 468-483): `in`, `name`, `required`, and the `default`, `enum`
and `type` of its schema object.  `default` holds the `str()` rendering of
a present, non-`None` declared default; `enum` the renderings of a declared
enum list. -/
structure QueryParam : Type where
  paramIn : Option String := none
  name : Option String := none
  required : Bool := false
  default : Option String := none
  enum : Option (List String) := none
  type : Option String := none
deriving DecidableEq, Repr

/-- The `for p in params` loop of `build_query` (lines 472-533).  Note the
source declares `missing_required` and never appends to it. -/
def build_query_loop (seeds : Seeds) :
    List QueryParam → List (String × String) → List String → List (String × String) × List String
  | [], q, missing_required => (q, missing_required)
  | p :: rest, q, missing_required =>
    if p.paramIn ≠ some "query" then build_query_loop seeds rest q missing_required
    else
      match p.name with
      | none => build_query_loop seeds rest q missing_required
      | some name =>
        let typ := p.type.getD "string"
        let q2 :=
          if name = "limit" then upsert name "1" q
          else if name = "offset" then upsert name "0" q
          else
            match p.default with
            | some d => upsert name d q
            | none =>
              match p.enum with
              | some (first :: _) => upsert name first q
              | _ =>
                if name = "fromBlock" ∨ name = "toBlock" then
                  upsert name (pyOrStrD seeds.height "0") q
                else if name = "start_date" ∨ name = "end_date" then upsert name "2020-01-01" q
                else if name = "direction" then upsert name "in" q
                else if name = "id" then upsert name "0" q
                else if p.required then
                  if name = "from" ∨ name = "to" then upsert name "2020-01-01" q
                  else if name = "events" then upsert name "Flow.AccountCreated" q
                  else if typ = "integer" then upsert name "0" q
                  else if typ = "number" then upsert name "0" q
                  else upsert name "0" q
                else q
        build_query_loop seeds rest q2 missing_required

/-- `build_query` (lines 468-535). -/
def build_query (params : List QueryParam) (seeds : Seeds) :
    List (String × String) × List String :=
  build_query_loop seeds params [] []

/-- The pre-request skip decision of `audit_endpoint` (lines 622-649):
a failed path-parameter fill or a nonempty missing-required list yields the
skip reason; `none` means the endpoint is probed. -/
def audit_skip_reason (path : String) (params : List QueryParam) (seeds : Seeds) : Option String :=
  match fill_path_params path seeds with
  | (_, false, reason) => some (reason.getD "")
  | (_, true, _) =>
    let mr := (build_query params seeds).2
    if mr ≠ [] then some ("missing required query params: " ++ String.intercalate ", " mr)
    else none

/-- The unconditional `open_prefixes.update({"_meta", "_links"})` of
`audit_endpoint` (line 662). -/
def add_meta_links (open_prefixes : List String) : List String :=
  sinsert "_links" (sinsert "_meta" open_prefixes)

/-- Insertion step of sorting observed items by path. -/
def insertSorted (x : String × ObservedField) :
    List (String × ObservedField) → List (String × ObservedField)
  | [] => [x]
  | y :: t => if x.1 ≤ y.1 then x :: y :: t else y :: insertSorted x t

/-- `sorted(observed.items())` by key (insertion sort; only membership and
order-insensitive properties are used below). -/
def sortByPath : List (String × ObservedField) → List (String × ObservedField)
  | [] => []
  | x :: t => insertSorted x (sortByPath t)

/-- The extra-field loop of `audit_endpoint` (lines 724-731), as key/value
pairs: observed paths that are neither expected nor covered by an open
prefix. -/
def compute_extra_pairs (expected : List (String × ExpectedField)) (open_prefixes : List String)
    (observed : List (String × ObservedField)) : List (String × ObservedField) :=
  (sortByPath observed).filter
    (fun kv => (dget expected kv.1).isNone && !is_allowed_extra kv.1 open_prefixes)

/-- The extra-field list of `audit_endpoint` (lines 724-731). -/
def compute_extra (expected : List (String × ExpectedField)) (open_prefixes : List String)
    (observed : List (String × ObservedField)) : List ObservedField :=
  (compute_extra_pairs expected open_prefixes observed).map Prod.snd

/-- The account-listing harvest of `seed_values` (lines 332-340).  The
whole seeding phase is modelled with `safe_get` replaced by a `responses`
map from path-plus-query to the decoded body of a 200 response (`none` for
any failure or non-200 status). -/
def step_account (responses : String → Option Json) (s : Seeds) : Seeds :=
  let a0 : Option Json :=
    match responses "/flow/v1/account?limit=1&offset=0" with
    | some acc =>
      match acc.get "data" with
      | some (.arr (x :: _)) => some x
      | _ => none
    | none => none
  let new_address :=
    match a0 with
    | some x =>
      match x.get "address" with
      | some (.str v) => some v
      | _ => s.address
    | none => s.address
  let new_height :=
    match a0 with
    | some x =>
      match x.get "height" with
      | some .null => s.height
      | some v => some (py_str v)
      | none => s.height
    | none => s.height
  { s with address := new_address, height := new_height }

/-- The block-listing harvest (lines 342-348). -/
def step_block (responses : String → Option Json) (s : Seeds) : Seeds :=
  let b0 : Option Json :=
    match responses "/flow/v1/block?limit=1&offset=0" with
    | some blk =>
      match blk.get "data" with
      | some (.arr (x :: _)) => some x
      | _ => none
    | none => none
  let new_height :=
    match b0 with
    | some x =>
      match x.get "height" with
      | some .null => s.height
      | some v => some (py_str v)
      | none => s.height
    | none => s.height
  { s with height := new_height }

/-- The transaction-listing harvest (lines 350-356). -/
def step_tx (responses : String → Option Json) (s : Seeds) : Seeds :=
  let t0 : Option Json :=
    match responses "/flow/v1/transaction?limit=1&offset=0" with
    | some tx =>
      match tx.get "data" with
      | some (.arr (x :: _)) => some x
      | _ => none
    | none => none
  let new_tx_id :=
    match t0 with
    | some x =>
      match x.get "id" with
      | some (.str v) => some v
      | _ => s.tx_id
    | none => s.tx_id
  { s with tx_id := new_tx_id }

/-- The contract-listing harvest (lines 358-364). -/
def step_contract (responses : String → Option Json) (s : Seeds) : Seeds :=
  let c0 : Option Json :=
    match responses "/flow/v1/contract?limit=1&offset=0" with
    | some c =>
      match c.get "data" with
      | some (.arr (x :: _)) => some x
      | _ => none
    | none => none
  let new_identifier :=
    match c0 with
    | some x =>
      match x.get "identifier" with
      | some (.str v) => some v
      | _ => s.identifier
    | none => s.identifier
  { s with identifier := new_identifier }

/-- The `for it in items` fungible-token loop (lines 370-384): the first
token whose holding listing is a dict with a nonempty `data` list sets the
`token` seed (and possibly overrides `address`) and breaks. -/
def ft_loop (responses : String → Option Json) : List Json → Seeds → Seeds
  | [], s => s
  | it :: rest, s =>
    match it.get "id" with
    | some (.str token) =>
      match responses ("/flow/v1/ft/" ++ urlquote token ++ "/holding?limit=1&offset=0") with
      | some holding =>
        match holding.get "data" with
        | some (.arr (h0 :: _)) =>
          let new_address :=
            match h0.get "address" with
            | some (.str a) => some a
            | _ => s.address
          { s with token := some token, address := new_address }
        | _ => ft_loop responses rest s
      | none => ft_loop responses rest s
    | _ => ft_loop responses rest s

/-- The fungible-token harvest (lines 366-384). -/
def step_ft (responses : String → Option Json) (s : Seeds) : Seeds :=
  match responses "/flow/v1/ft?limit=5&offset=0" with
  | some ft =>
    match ft.get "data" with
    | some (.arr items) => ft_loop responses items s
    | _ => s
  | none => s

/-- The `for it in items` NFT loop (lines 390-402), analogous to
`ft_loop` with the `owner` field overriding `address`. -/
def nft_loop (responses : String → Option Json) : List Json → Seeds → Seeds
  | [], s => s
  | it :: rest, s =>
    match it.get "id" with
    | some (.str nft_type) =>
      match responses ("/flow/v1/nft/" ++ urlquote nft_type ++ "/holding?limit=1&offset=0") with
      | some holding =>
        match holding.get "data" with
        | some (.arr (h0 :: _)) =>
          let new_address :=
            match h0.get "owner" with
            | some (.str a) => some a
            | _ => s.address
          { s with nft_type := some nft_type, address := new_address }
        | _ => nft_loop responses rest s
      | none => nft_loop responses rest s
    | _ => nft_loop responses rest s

/-- The NFT harvest (lines 386-402). -/
def step_nft (responses : String → Option Json) (s : Seeds) : Seeds :=
  match responses "/flow/v1/nft?limit=5&offset=0" with
  | some nft =>
    match nft.get "data" with
    | some (.arr items) => nft_loop responses items s
    | _ => s
  | none => s

/-- The EVM-transaction harvest (lines 404-410). -/
def step_evm (responses : String → Option Json) (s : Seeds) : Seeds :=
  let e0 : Option Json :=
    match responses "/flow/v1/evm/transaction?limit=1&offset=0" with
    | some evm =>
      match evm.get "data" with
      | some (.arr (x :: _)) => some x
      | _ => none
    | none => none
  let new_evm_hash :=
    match e0 with
    | some x =>
      match x.get "hash" with
      | some (.str v) => some v
      | _ => s.evm_hash
    | none => s.evm_hash
  { s with evm_hash := new_evm_hash }

/-- The EVM-token harvest (lines 412-420), with Python's
`t0.get("address") or t0.get("id")`. -/
def step_evm_token (responses : String → Option Json) (s : Seeds) : Seeds :=
  let t0 : Option Json :=
    match responses "/flow/v1/evm/token?limit=1&offset=0" with
    | some evm_token =>
      match evm_token.get "data" with
      | some (.arr (x :: _)) => some x
      | _ => none
    | none => none
  let new_evm_token_address :=
    match t0 with
    | some x =>
      match jsonOr (x.get "address") (x.get "id") with
      | some (.str a) => some a
      | _ => s.evm_token_address
    | none => s.evm_token_address
  { s with evm_token_address := new_evm_token_address }

/-- `seed_values` (lines 312-422): the seed dict starts with every entry
`None` (line 320-330) and the eight harvesting steps run in order. -/
def seed_values (responses : String → Option Json) : Seeds :=
  step_evm_token responses (step_evm responses (step_nft responses (step_ft responses
    (step_contract responses (step_tx responses (step_block responses
      (step_account responses {})))))))

/-- Modelled from the spec's words (claim C2): the compatibility rule —
identical types match, declared `number` accepts observed `integer`,
declared `unknown` accepts anything. -/
def compat_spec (expected_type observed_type : String) : Bool :=
  (expected_type == observed_type) ||
    (expected_type == "number" && observed_type == "integer") ||
    (expected_type == "unknown")

/-- Modelled from the spec's words (claim C1): the NEAREST enclosing array
path of a field path, i.e. everything before the LAST `[]` marker (`none`
when the path lies under no array). -/
def nearest_enclosing_array_path (p : String) : Option String :=
  let parts := pySplitOn p "[]"
  if parts.length ≤ 1 then none
  else some (String.intercalate "[]" parts.dropLast)

/-- Modelled from the spec's words (claim C8): the dotted typed-resource
convention — the letter `A`, a dot, a 16-character lowercase-hex address,
a dot, and one or two `[A-Za-z0-9_]+` name segments separated by a dot. -/
def cadence_convention (s : String) : Bool :=
  match s.data with
  | 'A' :: '.' :: rest =>
    hex_fixed 16 (rest.take 16) &&
      (match rest.drop 16 with
       | '.' :: r =>
         let w := r.takeWhile isWordChar
         let r2 := r.drop w.length
         !w.isEmpty &&
           (r2.isEmpty ||
             (match r2 with
              | '.' :: r3 => !r3.isEmpty && r3.all isWordChar
              | _ => false))
       | _ => false)
  | _ => false

/-- A bare `type: string` schema node. -/
def string_schema : SchemaNode := .mk none none (some "string") none none .absent none none none

/-- A bare `$ref` schema node. -/
def ref_schema (r : String) : SchemaNode := .mk (some r) none none none none .absent none none none

/-- The empty collection state (as `audit_endpoint` line 658-660 starts). -/
def cstate0 : CState := ⟨[], [], []⟩

/-- The empty observation state. -/
def ostate0 : OState := ⟨[], []⟩

/-- Seeds with every entry unset. -/
def seeds0 : Seeds := {}

/-- Component schema `A` for the sibling-reference example: an object with
one required string property `x`. -/
def c3_schema_A : SchemaNode :=
  .mk none none (some "object") (some [("x", string_schema)]) (some ["x"]) .absent none none none

/-- Sibling-reference example document: one component `A`. -/
def c3_env : List (String × SchemaNode) := [("#/components/schemas/A", c3_schema_A)]

/-- Sibling-reference example response schema: an object whose two
properties `p1` and `p2` each reference `A`. -/
def c3_root : SchemaNode :=
  .mk none none (some "object")
    (some [("p1", ref_schema "#/components/schemas/A"),
           ("p2", ref_schema "#/components/schemas/A")])
    none .absent none none none

/-- Cyclic example component `A`: object whose property `b` references `B`. -/
def c4_schema_A : SchemaNode :=
  .mk none none (some "object") (some [("b", ref_schema "#/components/schemas/B")])
    none .absent none none none

/-- Cyclic example component `B`: object whose property `a` references `A`
(closing the cycle). -/
def c4_schema_B : SchemaNode :=
  .mk none none (some "object") (some [("a", ref_schema "#/components/schemas/A")])
    none .absent none none none

/-- Cyclic example document: `A` references `B` references `A`. -/
def c4_env : List (String × SchemaNode) :=
  [("#/components/schemas/A", c4_schema_A), ("#/components/schemas/B", c4_schema_B)]

/-- Cyclic example response schema: a reference to `A`. -/
def c4_root : SchemaNode := ref_schema "#/components/schemas/A"

/-- Nested-array example payload `{"a": [{"b": []}]}`: the outer array `a`
is nonempty while the inner array `a[].b` is empty. -/
def c1_payload : Json := .obj [("a", .arr [.obj [("b", .arr [])]])]

/-- Expected field `a[].b[].c` under two array levels. -/
def c1_field : ExpectedField := ⟨"a[].b[].c", "string", false, none, none⟩

/-- Payload `{"items": []}` of the spec's empty-array scenario. -/
def c1w_payload : Json := .obj [("items", .arr [])]

/-- Expected field `items[].name` of the spec's empty-array scenario. -/
def c1w_field : ExpectedField := ⟨"items[].name", "string", false, none, none⟩

/-- Expected field declared `number` (round-trip scenario). -/
def c2w_field : ExpectedField := ⟨"data[].balance", "number", true, none, none⟩

/-- Observed integer field for the round-trip scenario. -/
def c2w_obs : ObservedField := ⟨"data[].balance", "integer", some "42"⟩

/-- Payload `{"a": 1}` for the root-recording counterexample. -/
def c5_payload : Json := .obj [("a", .int 1)]

/-- A state already holding an `unknown`-typed merged entry at `amount`. -/
def c6w_state : CState :=
  ⟨[("amount", ⟨"amount", "unknown", false, none, none⟩)], [], []⟩

/-- A leaf string schema carrying a format and a description, recorded at a
path another branch already recorded. -/
def c6w_schema : SchemaNode :=
  .mk none none (some "string") none none .absent none (some "uint64") (some "token amount")

/-- A required query parameter resolvable by no default, enum or fixed
table entry. -/
def c7_param : QueryParam := ⟨some "query", some "foo", true, none, none, some "string"⟩

/-- Expected string field whose path key is `token`. -/
def c8_field : ExpectedField := ⟨"data[].token", "string", false, none, none⟩

/-- Observed value following the dotted typed-resource convention. -/
def c8_obs : ObservedField := ⟨"data[].token", "string", some "A.1654653399040a61.FlowToken"⟩

/-- The NFT item endpoint path template. -/
def c9w_path : String := "/flow/v1/nft/\x7bnft_type\x7d/item/\x7bid\x7d"

/-- An observed field under `_meta`. -/
def c10w_obs : ObservedField := ⟨"_meta.foo", "string", some "x"⟩

theorem dget_upsert_self {α : Type} (key : String) (v : α) (l : List (String × α)) :
    dget (upsert key v l) key = some v := by
  induction l with
  | nil => simp [upsert, dget]
  | cons kv rest ih =>
    obtain ⟨k, w⟩ := kv
    by_cases h : k = key <;> simp [upsert, dget, h, ih]

theorem dget_upsert_ne {α : Type} (key k2 : String) (v : α) (l : List (String × α))
    (h : key ≠ k2) : dget (upsert key v l) k2 = dget l k2 := by
  induction l with
  | nil => simp [upsert, dget, h]
  | cons kv rest ih =>
    obtain ⟨k, w⟩ := kv
    by_cases hk : k = key <;> simp [upsert, dget, hk, h, ih]

/-- C3: evaluating the walk on a schema whose two sibling properties both
reference component `A` shows the visited-reference set is shared across
the whole traversal: the second sibling is skipped entirely, so neither
`p2` nor `p2.x` is recorded — only `p1` and `p1.x` are. -/
theorem c3_bug_eval :
    collect_expected_fields c3_env 10 c3_root "" false cstate0 =
      CRes.ok (CState.mk
        [("p1", ExpectedField.mk "p1" "object" false none none),
         ("p1.x", ExpectedField.mk "p1.x" "string" true none none)]
        [] ["#/components/schemas/A"]) := by decide

/-- C8: the value `A.1654653399040a61.FlowToken` follows the dotted
typed-resource convention, yet `semantic_warnings` attaches
`cadence_type_format` to it: the compiled `CADENCE_TYPE_RE` requires
literal backslashes (doubled backslashes inside a raw string), so no
conventional dotted value can match it. -/
theorem c8_bug_eval :
    cadence_convention "A.1654653399040a61.FlowToken" = true ∧
    semantic_warnings c8_field (some c8_obs) = ["cadence_type_format"] := by decide

/-- C7 counterexample: a required query parameter (`foo`) resolvable from
no default, enum or fixed table entry still receives the generic
placeholder `0`; the missing-required list stays empty and the endpoint is
not skipped, contradicting the claimed skip. -/
theorem c7_counterexample :
    build_query [c7_param] seeds0 = ([("foo", "0")], []) ∧
    audit_skip_reason "/flow/v1/block" [c7_param] seeds0 = none := by decide

/-- C1 counterexample: for expected field `a[].b[].c` against payload
`{"a": [{"b": []}]}`, the nearest enclosing array path `a[].b` is recorded
with length zero, yet classification returns MISSING (the code checks the
outermost prefix `a`, which has length 1), refuting the claimed
biconditional. -/
theorem c1_counterexample :
    classify_status "a[].b[].c" c1_field
        (collect_observed_fields c1_payload "" ostate0).out
        (collect_observed_fields c1_payload "" ostate0).array_lengths = "MISSING" ∧
    nearest_enclosing_array_path "a[].b[].c" = some "a[].b" ∧
    dget (collect_observed_fields c1_payload "" ostate0).array_lengths "a[].b" = some 0 ∧
    dget (collect_observed_fields c1_payload "" ostate0).out "a[].b[].c" = none := by decide

/-- C5 counterexample: flattening `{"a": 1}` from the root (the empty
prefix, exactly as `audit_endpoint` invokes it) records the child `a` but
does NOT record the root value at the root path. -/
theorem c5_counterexample :
    dget (collect_observed_fields c5_payload "" ostate0).out "" = none ∧
    type_of_value c5_payload = "object" ∧
    dget (collect_observed_fields c5_payload "" ostate0).out "a" =
      some (ObservedField.mk "a" "integer" (some "1")) := by decide

theorem compat_spec_eq_expected_allows (e o : String) :
    compat_spec e o = expected_allows_observed e o := by
  simp only [compat_spec, expected_allows_observed]
  split_ifs with h1 h2 h3
  · simp [h1]
  · simp [h2]
  · simp [h3.1, h3.2]
  · have h4 : (e == o) = false := by simp [h2]
    have h5 : (e == "unknown") = false := by simp [h1]
    have h6 : (e == "number" && o == "integer") = false := by
      rcases not_and_or.mp h3 with h | h <;> simp [h]
    simp [h4, h5, h6]

/-- C2: for a field present in the observed map, observed `null` yields
NULL (never TYPE_MISMATCH) regardless of the declared type; otherwise the
status is OK exactly when the observed type is compatible with the declared
type under the spec's rule (identical / number-accepts-integer /
unknown-accepts-anything, shown equal to the source's
`expected_allows_observed`), and TYPE_MISMATCH in every other case. -/
theorem c2_thm (fpath : String) (ef : ExpectedField) (observed : List (String × ObservedField))
    (array_lengths : List (String × Nat)) (obs : ObservedField)
    (h : dget observed fpath = some obs) :
    (obs.observed_type = "null" →
        classify_status fpath ef observed array_lengths = "NULL" ∧
        classify_status fpath ef observed array_lengths ≠ "TYPE_MISMATCH") ∧
    (obs.observed_type ≠ "null" →
        ((classify_status fpath ef observed array_lengths = "OK" ↔
            compat_spec ef.expected_type obs.observed_type = true) ∧
          (compat_spec ef.expected_type obs.observed_type = false →
            classify_status fpath ef observed array_lengths = "TYPE_MISMATCH"))) := by
  simp only [classify_status, h]
  constructor
  · intro hnull
    simp [hnull]
  · intro hnn
    rw [compat_spec_eq_expected_allows]
    by_cases hc : expected_allows_observed ef.expected_type obs.observed_type = true
    · simp [hnn, hc]
    · simp only [Bool.not_eq_true] at hc
      simp [hnn, hc]

/-- C2 witness: the round-trip scenario — declared `number` classified
against observed `integer` yields OK. -/
theorem c2_witness :
    classify_status "data[].balance" c2w_field [("data[].balance", c2w_obs)] [] = "OK" := by
  have h := c2_thm "data[].balance" c2w_field [("data[].balance", c2w_obs)] [] c2w_obs (by decide)
  exact ((h.2 (by decide)).1).mpr (by decide)

/-- C1 (amended): for an expected field absent from the observed map, the
status is UNVERIFIED_EMPTY_ARRAY exactly when the prefix of the field's
path before its FIRST `[]` marker (the outermost enclosing array path) is
nonempty and recorded with length zero in the array-lengths map, and
MISSING otherwise. -/
theorem c1_amended_thm (fpath : String) (ef : ExpectedField)
    (observed : List (String × ObservedField)) (array_lengths : List (String × Nat))
    (h : dget observed fpath = none) :
    (classify_status fpath ef observed array_lengths = "UNVERIFIED_EMPTY_ARRAY" ↔
      (∃ ap, array_prefix_for fpath = some ap ∧ ap ≠ "" ∧ dget array_lengths ap = some 0)) ∧
    (classify_status fpath ef observed array_lengths = "UNVERIFIED_EMPTY_ARRAY" ∨
      classify_status fpath ef observed array_lengths = "MISSING") := by
  simp only [classify_status, h]
  cases hap : array_prefix_for fpath with
  | none => simp
  | some ap =>
    by_cases hcond : ap ≠ "" ∧ dget array_lengths ap = some 0
    · simp [hcond]
    · simp only [if_neg hcond]
      refine ⟨⟨fun hfalse => absurd hfalse (by decide), ?_⟩, by simp⟩
      rintro ⟨ap2, hap2, hne, hz⟩
      injection hap2 with heq
      subst heq
      exact absurd ⟨hne, hz⟩ hcond

/-- C1 witness: the spec's empty-array scenario — expected `items[].name`
against payload `{"items": []}` classifies as UNVERIFIED_EMPTY_ARRAY. -/
theorem c1_witness :
    classify_status "items[].name" c1w_field
      (collect_observed_fields c1w_payload "" ostate0).out
      (collect_observed_fields c1w_payload "" ostate0).array_lengths =
      "UNVERIFIED_EMPTY_ARRAY" := by
  have h := c1_amended_thm "items[].name" c1w_field
      (collect_observed_fields c1w_payload "" ostate0).out
      (collect_observed_fields c1w_payload "" ostate0).array_lengths (by decide)
  exact h.1.mpr ⟨"items", by decide, by decide, by decide⟩

/-- C6: when the schema walk records a (leaf) branch at a path already
present in the expected map, the merged entry ORs the required flags,
prefers a known type over `unknown` (keeping the first known type), and
keeps the first non-empty format and description (falling back to the new
branch's value when the stored one is `None` or empty). -/
theorem c6_merge_thm (spec : List (String × SchemaNode)) (fuel : Nat) (schema : SchemaNode)
    (pfx : String) (req : Bool) (st : CState) (existing : ExpectedField)
    (href : schema.ref = none) (hallof : schema.allOf = none) (hpfx : pfx ≠ "")
    (hex : dget st.out pfx = some existing)
    (hobj : schema_type schema ≠ "object") (harr : schema_type schema ≠ "array") :
    ∃ merged, collect_expected_fields spec (fuel + 1) schema pfx req st =
        CRes.ok { st with out := upsert pfx merged st.out } ∧
      merged.path = pfx ∧
      merged.required = (existing.required || req) ∧
      (existing.expected_type ≠ "unknown" → merged.expected_type = existing.expected_type) ∧
      (existing.expected_type = "unknown" → merged.expected_type = schema_type schema) ∧
      ((∃ s, existing.fmt = some s ∧ s ≠ "") → merged.fmt = existing.fmt) ∧
      ((existing.fmt = none ∨ existing.fmt = some "") → merged.fmt = schema.format) ∧
      ((∃ s, existing.description = some s ∧ s ≠ "") → merged.description = existing.description) ∧
      ((existing.description = none ∨ existing.description = some "") →
        merged.description = schema.description) := by
  refine ⟨ExpectedField.mk pfx
      (if existing.expected_type ≠ "unknown" then existing.expected_type else schema_type schema)
      (existing.required || req)
      (pyOrStr existing.fmt schema.format)
      (pyOrStr existing.description schema.description), ?_, rfl, rfl, ?_, ?_, ?_, ?_, ?_, ?_⟩
  · simp only [collect_expected_fields, collect_type_body, href, hallof, record_expected, hex,
      if_pos hpfx, if_neg hobj, if_neg harr]
  · intro hk
    simp [hk]
  · intro hu
    simp [hu]
  · rintro ⟨s, hs, hne⟩
    simp [pyOrStr, hs, hne]
  · rintro (hn | he)
    · simp [pyOrStr, hn]
    · simp [pyOrStr, he]
  · rintro ⟨s, hs, hne⟩
    simp [pyOrStr, hs, hne]
  · rintro (hn | he)
    · simp [pyOrStr, hn]
    · simp [pyOrStr, he]

/-- C6 witness: merging a `string`-typed branch with format `uint64` and a
description into an existing `unknown`, non-required, format-less entry at
`amount` under a required context yields the fully merged field. -/
theorem c6_witness :
    collect_expected_fields [] 1 c6w_schema "amount" true c6w_state =
      CRes.ok (CState.mk
        [("amount", ExpectedField.mk "amount" "string" true (some "uint64") (some "token amount"))]
        [] []) := by
  obtain ⟨merged, heq, hpath, hreq, hkn, hun, hf1, hf2, hd1, hd2⟩ :=
    c6_merge_thm [] 0 c6w_schema "amount" true c6w_state
      (ExpectedField.mk "amount" "unknown" false none none)
      rfl rfl (by decide) (by decide) (by decide) (by decide)
  have hm : merged =
      ExpectedField.mk "amount" "string" true (some "uint64") (some "token amount") := by
    obtain ⟨p, t, r, f, d⟩ := merged
    have h1 : p = "amount" := hpath
    have h2 : r = true := by simpa using hreq
    have h3 : t = "string" := by simpa [c6w_schema, schema_type, SchemaNode.type] using hun rfl
    have h4 : f = some "uint64" := by
      simpa [c6w_schema, SchemaNode.format] using hf2 (Or.inl rfl)
    have h5 : d = some "token amount" := by
      simpa [c6w_schema, SchemaNode.description] using hd2 (Or.inl rfl)
    simp [h1, h2, h3, h4, h5]
  rw [hm] at heq
  rw [heq]
  rfl

theorem build_query_loop_missing (seeds : Seeds) :
    ∀ (params : List QueryParam) (q : List (String × String)) (missing : List String),
      (build_query_loop seeds params q missing).2 = missing := by
  intro params
  induction params with
  | nil => intro q missing; rfl
  | cons p rest ih =>
    intro q missing
    by_cases h1 : p.paramIn ≠ some "query"
    · simp only [build_query_loop, if_pos h1]
      exact ih _ _
    · simp only [build_query_loop, if_neg h1]
      cases hn : p.name
      · exact ih _ _
      · exact ih _ _

/-- C7 (amended): `build_query` never reports a missing required query
parameter — its missing-required list is empty for every parameter list
and seed set, because every required parameter falls through to a generic
placeholder — and consequently an endpoint whose path parameters fill
successfully is never skipped. -/
theorem c7_amended_thm (params : List QueryParam) (seeds : Seeds) (path : String)
    (hfill : (fill_path_params path seeds).2.1 = true) :
    (build_query params seeds).2 = [] ∧ audit_skip_reason path params seeds = none := by
  have hm : (build_query params seeds).2 = [] := build_query_loop_missing seeds params [] []
  refine ⟨hm, ?_⟩
  unfold audit_skip_reason
  rcases hfp : fill_path_params path seeds with ⟨filled, ok, reason⟩
  rw [hfp] at hfill
  simp only at hfill
  subst hfill
  simp [hm]

/-- C7 witness for the amended claim: a required, otherwise-unresolvable
query parameter on a parameterless path is still probed. -/
theorem c7_witness :
    (build_query [c7_param] seeds0).2 = [] ∧
    audit_skip_reason "/flow/v1/block" [c7_param] seeds0 = none :=
  c7_amended_thm [c7_param] seeds0 "/flow/v1/block" (by decide)

theorem mem_sinsert_self (x : String) (s : List String) : x ∈ sinsert x s := by
  unfold sinsert
  split_ifs with h
  · exact h
  · exact List.mem_append.mpr (Or.inr (List.mem_singleton.mpr rfl))

theorem mem_sinsert_of_mem (x y : String) (s : List String) (h : y ∈ s) : y ∈ sinsert x s := by
  unfold sinsert
  split_ifs with hx
  · exact h
  · exact List.mem_append.mpr (Or.inl h)

/-- C10: with `_meta` and `_links` unconditionally added to the open-prefix
set, no observed field whose path is `_meta` or `_links` or nested under
either (via `.` or `[]`) is ever reported as an extra field, whatever the
schema declared. -/
theorem c10_thm (expected : List (String × ExpectedField)) (opens : List String)
    (observed : List (String × ObservedField)) (opath : String) (v : ObservedField)
    (hcov : opath = "_meta" ∨ opath = "_links" ∨
      pyStartsWith opath "_meta." = true ∨ pyStartsWith opath "_meta[]" = true ∨
      pyStartsWith opath "_links." = true ∨ pyStartsWith opath "_links[]" = true) :
    (opath, v) ∉ compute_extra_pairs expected (add_meta_links opens) observed := by
  intro hmem
  have hpred := (List.mem_filter.mp hmem).2
  have hmeta : "_meta" ∈ add_meta_links opens :=
    mem_sinsert_of_mem _ _ _ (mem_sinsert_self _ _)
  have hlinks : "_links" ∈ add_meta_links opens := mem_sinsert_self _ _
  have hallow : is_allowed_extra opath (add_meta_links opens) = true := by
    unfold is_allowed_extra
    have e1 : ("_meta" ++ "." : String) = "_meta." := rfl
    have e2 : ("_meta" ++ "[]" : String) = "_meta[]" := rfl
    have e3 : ("_links" ++ "." : String) = "_links." := rfl
    have e4 : ("_links" ++ "[]" : String) = "_links[]" := rfl
    rcases hcov with h | h | h | h | h | h
    · exact List.any_eq_true.mpr ⟨"_meta", hmeta, by simp [h]⟩
    · exact List.any_eq_true.mpr ⟨"_links", hlinks, by simp [h]⟩
    · exact List.any_eq_true.mpr ⟨"_meta", hmeta, by simp [e1, e2, h]⟩
    · exact List.any_eq_true.mpr ⟨"_meta", hmeta, by simp [e1, e2, h]⟩
    · exact List.any_eq_true.mpr ⟨"_links", hlinks, by simp [e3, e4, h]⟩
    · exact List.any_eq_true.mpr ⟨"_links", hlinks, by simp [e3, e4, h]⟩
  simp [hallow] at hpred

/-- C10 witness: an observed `_meta.foo` field is not reported extra even
with an empty expected map and no schema-declared open prefixes. -/
theorem c10_witness :
    ("_meta.foo", c10w_obs) ∉
      compute_extra_pairs [] (add_meta_links []) [("_meta.foo", c10w_obs)] :=
  c10_thm [] [] [("_meta.foo", c10w_obs)] "_meta.foo" c10w_obs
    (Or.inr (Or.inr (Or.inl (by decide))))

theorem step_account_nft_item_id (r : String → Option Json) (s : Seeds) :
    (step_account r s).nft_item_id = s.nft_item_id := rfl

theorem step_block_nft_item_id (r : String → Option Json) (s : Seeds) :
    (step_block r s).nft_item_id = s.nft_item_id := rfl

theorem step_tx_nft_item_id (r : String → Option Json) (s : Seeds) :
    (step_tx r s).nft_item_id = s.nft_item_id := rfl

theorem step_contract_nft_item_id (r : String → Option Json) (s : Seeds) :
    (step_contract r s).nft_item_id = s.nft_item_id := rfl

theorem ft_loop_nft_item_id (r : String → Option Json) :
    ∀ (items : List Json) (s : Seeds), (ft_loop r items s).nft_item_id = s.nft_item_id := by
  intro items
  induction items with
  | nil => intro s; rfl
  | cons it rest ih =>
    intro s
    unfold ft_loop
    repeat' split
    all_goals first | rfl | exact ih _

theorem nft_loop_nft_item_id (r : String → Option Json) :
    ∀ (items : List Json) (s : Seeds), (nft_loop r items s).nft_item_id = s.nft_item_id := by
  intro items
  induction items with
  | nil => intro s; rfl
  | cons it rest ih =>
    intro s
    unfold nft_loop
    repeat' split
    all_goals first | rfl | exact ih _

theorem step_ft_nft_item_id (r : String → Option Json) (s : Seeds) :
    (step_ft r s).nft_item_id = s.nft_item_id := by
  unfold step_ft
  repeat' split
  all_goals first | rfl | exact ft_loop_nft_item_id r _ _

theorem step_nft_nft_item_id (r : String → Option Json) (s : Seeds) :
    (step_nft r s).nft_item_id = s.nft_item_id := by
  unfold step_nft
  repeat' split
  all_goals first | rfl | exact nft_loop_nft_item_id r _ _

theorem step_evm_nft_item_id (r : String → Option Json) (s : Seeds) :
    (step_evm r s).nft_item_id = s.nft_item_id := rfl

theorem step_evm_token_nft_item_id (r : String → Option Json) (s : Seeds) :
    (step_evm_token r s).nft_item_id = s.nft_item_id := rfl

theorem seed_values_nft_item_id (r : String → Option Json) :
    (seed_values r).nft_item_id = none := by
  unfold seed_values
  rw [step_evm_token_nft_item_id, step_evm_nft_item_id, step_nft_nft_item_id,
    step_ft_nft_item_id, step_contract_nft_item_id, step_tx_nft_item_id,
    step_block_nft_item_id, step_account_nft_item_id]

theorem fill_param_value_id_none (path : String) (seeds : Seeds)
    (hin : str_contains path "/nft/\x7bnft_type\x7d/item/\x7bid\x7d" = true)
    (hnull : seeds.nft_item_id = none) :
    fill_param_value path seeds "id" = none := by
  simp [fill_param_value, hin, hnull]

theorem fill_loop_fails (path : String) (seeds : Seeds)
    (hin : str_contains path "/nft/\x7bnft_type\x7d/item/\x7bid\x7d" = true)
    (hnull : seeds.nft_item_id = none) :
    ∀ (params : List String) (filled : String), "id" ∈ params →
      ∃ p, fill_loop path seeds params filled = (path, false, some ("missing path param " ++ p)) := by
  intro params
  induction params with
  | nil => intro filled h; cases h
  | cons p rest ih =>
    intro filled hmem
    by_cases hp : p = "id"
    · subst hp
      refine ⟨"id", ?_⟩
      simp only [fill_loop, fill_param_value_id_none path seeds hin hnull]
    · cases hval : fill_param_value path seeds p with
      | none => exact ⟨p, by simp only [fill_loop, hval]⟩
      | some v =>
        have hmem2 : "id" ∈ rest := by
          rcases List.mem_cons.mp hmem with h | h
          · exact absurd h.symm hp
          · exact h
        obtain ⟨p2, hp2⟩ := ih _ hmem2
        refine ⟨p2, ?_⟩
        simp only [fill_loop, hval]
        exact hp2

/-- C9: the `nft_item_id` seed is `None` whatever every harvesting call
returns (it is initialized to `None` and no step assigns it), and
consequently any endpoint whose path template contains the segment
`/nft/{nft_type}/item/{id}` (so that `id` is one of its path parameters)
is skipped with a missing-path-parameter reason before any HTTP request is
built. -/
theorem c9_thm (responses : String → Option Json) (path : String) (params : List QueryParam)
    (hin : str_contains path "/nft/\x7bnft_type\x7d/item/\x7bid\x7d" = true)
    (hid : "id" ∈ path_params path) :
    ∃ p, audit_skip_reason path params (seed_values responses) =
      some ("missing path param " ++ p) := by
  have hnull := seed_values_nft_item_id responses
  obtain ⟨p, hp⟩ :=
    fill_loop_fails path (seed_values responses) hin hnull (path_params path) path hid
  refine ⟨p, ?_⟩
  have hne : (path_params path).isEmpty = false := by
    cases hpp : path_params path
    · rw [hpp] at hid; cases hid
    · rfl
  unfold audit_skip_reason fill_path_params
  simp only [hne, Bool.false_eq_true, if_false, hp]
  rfl

/-- C9 witness: the NFT item endpoint template is skipped (its skip reason
is set) even when every harvesting call fails. -/
theorem c9_witness :
    audit_skip_reason c9w_path [] (seed_values (fun _ => none)) ≠ none := by
  obtain ⟨p, hp⟩ := c9_thm (fun _ => none) c9w_path [] (by decide) (by decide)
  rw [hp]
  exact Option.some_ne_none _

theorem length_pos_ne_empty (s : String) (h : 0 < s.length) : s ≠ "" := by
  intro he
  rw [he] at h
  exact absurd h (by decide)

theorem obs_children_preserves_of (rec : Json → String → OState → OState)
    (hrec : ∀ (payload : Json) (q : String) (st : OState) (k : String),
      q ≠ "" → k.length < q.length → dget (rec payload q st).out k = dget st.out k) :
    ∀ (fields : List (String × Json)) (q : String) (st : OState) (k : String),
      q ≠ "" → k.length ≤ q.length →
      dget (obs_children rec fields q st).out k = dget st.out k := by
  intro fields
  induction fields with
  | nil => intro q st k _ _; rfl
  | cons kv rest ihf =>
    intro q st k hq hk
    obtain ⟨key, v⟩ := kv
    unfold obs_children
    simp only [if_pos hq]
    rw [ihf _ _ _ hq hk]
    apply hrec
    · apply length_pos_ne_empty
      rw [String.length_append, String.length_append]
      have hdot : String.length "." = 1 := rfl
      omega
    · rw [String.length_append, String.length_append]
      have hdot : String.length "." = 1 := rfl
      omega

theorem go_preserves : ∀ (fuel : Nat) (payload : Json) (q : String) (st : OState) (k : String),
    q ≠ "" → k.length < q.length →
    dget (collect_observed_go fuel payload q st).out k = dget st.out k := by
  intro fuel
  induction fuel with
  | zero => intro payload q st k _ _; rfl
  | succ n ih =>
    intro payload q st k hq hk
    have hkq : q ≠ k := by
      intro he
      rw [he] at hk
      exact absurd hk (lt_irrefl _)
    cases payload with
    | null =>
      simp only [collect_observed_go, if_pos hq]
      exact dget_upsert_ne q k _ st.out hkq
    | bool b =>
      simp only [collect_observed_go, if_pos hq]
      exact dget_upsert_ne q k _ st.out hkq
    | int i =>
      simp only [collect_observed_go, if_pos hq]
      exact dget_upsert_ne q k _ st.out hkq
    | num r =>
      simp only [collect_observed_go, if_pos hq]
      exact dget_upsert_ne q k _ st.out hkq
    | str s =>
      simp only [collect_observed_go, if_pos hq]
      exact dget_upsert_ne q k _ st.out hkq
    | obj fields =>
      simp only [collect_observed_go, if_pos hq]
      rw [obs_children_preserves_of (collect_observed_go n)
        (fun p q2 st2 k2 => ih p q2 st2 k2) fields q _ k hq (le_of_lt hk)]
      exact dget_upsert_ne q k _ st.out hkq
    | arr elems =>
      simp only [collect_observed_go, if_pos hq]
      cases elems with
      | nil => exact dget_upsert_ne q k _ st.out hkq
      | cons e t =>
        have hne : (q ++ "[]" : String) ≠ "" := by
          apply length_pos_ne_empty
          rw [String.length_append]
          have hbr : String.length "[]" = 2 := rfl
          omega
        have hlen : k.length < (q ++ "[]" : String).length := by
          rw [String.length_append]
          have hbr : String.length "[]" = 2 := rfl
          omega
        rw [ih e (q ++ "[]") _ k hne hlen]
        exact dget_upsert_ne q k _ st.out hkq

theorem jsize_ne_zero (j : Json) : jsize j ≠ 0 := by
  cases j <;> simp [jsize]

/-- C5 (amended): when the flattener is invoked with a nonempty path
prefix, the value itself is recorded at that prefix with its runtime type
classification and sample (and, per the counterexample, the root invocation
with the empty prefix records nothing at the root path). -/
theorem c5_amended_thm (payload : Json) (q : String) (st : OState) (hq : q ≠ "") :
    dget (collect_observed_fields payload q st).out q =
      some (ObservedField.mk q (type_of_value payload) (some (sample_value payload))) := by
  unfold collect_observed_fields
  obtain ⟨m, hm⟩ := Nat.exists_eq_succ_of_ne_zero (jsize_ne_zero payload)
  rw [hm]
  cases payload with
  | null =>
    simp only [collect_observed_go, if_pos hq]
    exact dget_upsert_self q _ st.out
  | bool b =>
    simp only [collect_observed_go, if_pos hq]
    exact dget_upsert_self q _ st.out
  | int i =>
    simp only [collect_observed_go, if_pos hq]
    exact dget_upsert_self q _ st.out
  | num r =>
    simp only [collect_observed_go, if_pos hq]
    exact dget_upsert_self q _ st.out
  | str s =>
    simp only [collect_observed_go, if_pos hq]
    exact dget_upsert_self q _ st.out
  | obj fields =>
    simp only [collect_observed_go, if_pos hq]
    rw [obs_children_preserves_of (collect_observed_go m)
      (fun p q2 st2 k2 => go_preserves m p q2 st2 k2) fields q _ q hq (le_refl _)]
    exact dget_upsert_self q _ st.out
  | arr elems =>
    simp only [collect_observed_go, if_pos hq]
    cases elems with
    | nil => exact dget_upsert_self q _ st.out
    | cons e t =>
      have hne : (q ++ "[]" : String) ≠ "" := by
        apply length_pos_ne_empty
        rw [String.length_append]
        have hbr : String.length "[]" = 2 := rfl
        omega
      have hlen : q.length < (q ++ "[]" : String).length := by
        rw [String.length_append]
        have hbr : String.length "[]" = 2 := rfl
        omega
      rw [go_preserves m e (q ++ "[]") _ q hne hlen]
      exact dget_upsert_self q _ st.out

/-- C5 witness for the amended claim: flattening `{"a": 1}` at the nonempty
prefix `user` records the object itself at `user`. -/
theorem c5_witness :
    dget (collect_observed_fields c5_payload "user" ostate0).out "user" =
      some (ObservedField.mk "user" (type_of_value c5_payload) (some (sample_value c5_payload))) :=
  c5_amended_thm c5_payload "user" ostate0 (by decide)

theorem ssizeOL_pos (a : Option (List SchemaNode)) : 1 ≤ ssizeOL a := by
  cases a <;> simp [ssizeOL]

theorem ssizeOPL_pos (p : Option (List (String × SchemaNode))) : 1 ≤ ssizeOPL p := by
  cases p <;> simp [ssizeOPL]

theorem ssizeAP_pos (ap : APValue) : 1 ≤ ssizeAP ap := by
  cases ap <;> simp [ssizeAP]

theorem ssizeO_pos (it : Option SchemaNode) : 1 ≤ ssizeO it := by
  cases it <;> simp [ssizeO]

theorem ssizePL_pos (l : List (String × SchemaNode)) : 1 ≤ ssizePL l := by
  cases l with
  | nil => simp [ssizePL]
  | cons kv t =>
    obtain ⟨k, v⟩ := kv
    simp only [ssizePL]
    omega

theorem ssize_ge_five (s : SchemaNode) : 5 ≤ ssize s := by
  cases s with
  | mk r a t p rq ap it f d =>
    have h1 := ssizeOL_pos a
    have h2 := ssizeOPL_pos p
    have h3 := ssizeAP_pos ap
    have h4 := ssizeO_pos it
    simp only [ssize]
    omega

theorem ssize_allOf_lt (schema : SchemaNode) (subs : List SchemaNode)
    (h : schema.allOf = some subs) : ssizeL subs < ssize schema := by
  cases schema with
  | mk r a t p rq ap it f d =>
    simp only [SchemaNode.allOf] at h
    subst h
    have h2 := ssizeOPL_pos p
    have h3 := ssizeAP_pos ap
    have h4 := ssizeO_pos it
    simp only [ssize, ssizeOL]
    omega

theorem ssize_props_lt (schema : SchemaNode) (l : List (String × SchemaNode))
    (h : schema.properties = some l) : ssizePL l < ssize schema := by
  cases schema with
  | mk r a t p rq ap it f d =>
    simp only [SchemaNode.properties] at h
    subst h
    have h1 := ssizeOL_pos a
    have h3 := ssizeAP_pos ap
    have h4 := ssizeO_pos it
    simp only [ssize, ssizeOPL]
    omega

theorem ssize_props_getD_lt (schema : SchemaNode) :
    ssizePL (schema.properties.getD []) < ssize schema := by
  cases hp : schema.properties with
  | none =>
    have h5 := ssize_ge_five schema
    simp only [Option.getD, ssizePL]
    omega
  | some l =>
    simpa using ssize_props_lt schema l hp

theorem ssize_items_lt (schema : SchemaNode) (items : SchemaNode)
    (h : schema.items = some items) : ssize items < ssize schema := by
  cases schema with
  | mk r a t p rq ap it f d =>
    simp only [SchemaNode.items] at h
    subst h
    have h1 := ssizeOL_pos a
    have h2 := ssizeOPL_pos p
    have h3 := ssizeAP_pos ap
    simp only [ssize, ssizeO]
    omega

theorem ssize_ap_lt (schema : SchemaNode) (ap : SchemaNode)
    (h : schema.additionalProperties = APValue.apSchema ap) : ssize ap < ssize schema := by
  cases schema with
  | mk r a t p rq apv it f d =>
    simp only [SchemaNode.additionalProperties] at h
    subst h
    have h1 := ssizeOL_pos a
    have h2 := ssizeOPL_pos p
    have h4 := ssizeO_pos it
    simp only [ssize, ssizeAP]
    omega

theorem record_expected_visited (st : CState) (pfx t : String) (req : Bool)
    (fmt desc : Option String) :
    (record_expected st pfx t req fmt desc).visited_refs = st.visited_refs := by
  unfold record_expected
  cases dget st.out pfx <;> rfl

theorem run_allOf_visited_mono (rec : SchemaNode → String → Bool → CState → CRes)
    (hrec : ∀ s p r st st2, rec s p r st = CRes.ok st2 → st.visited_refs ⊆ st2.visited_refs) :
    ∀ (subs : List SchemaNode) (pfx : String) (req : Bool) (st st2 : CState),
      run_allOf rec subs pfx req st = CRes.ok st2 → st.visited_refs ⊆ st2.visited_refs := by
  intro subs
  induction subs with
  | nil =>
    intro pfx req st st2 h
    injection h with h2
    subst h2
    exact fun x hx => hx
  | cons sub rest ih =>
    intro pfx req st st2 h
    unfold run_allOf at h
    cases hcall : rec sub pfx req st with
    | ok stm =>
      rw [hcall] at h
      exact fun x hx => ih _ _ _ _ h (hrec _ _ _ _ _ hcall hx)
    | refError e => rw [hcall] at h; cases h
    | outOfFuel => rw [hcall] at h; cases h

theorem run_props_visited_mono (rec : SchemaNode → String → Bool → CState → CRes)
    (hrec : ∀ s p r st st2, rec s p r st = CRes.ok st2 → st.visited_refs ⊆ st2.visited_refs) :
    ∀ (props : List (String × SchemaNode)) (pfx : String) (req_list : List String) (st st2 : CState),
      run_props rec props pfx req_list st = CRes.ok st2 → st.visited_refs ⊆ st2.visited_refs := by
  intro props
  induction props with
  | nil =>
    intro pfx rl st st2 h
    injection h with h2
    subst h2
    exact fun x hx => hx
  | cons kv rest ih =>
    intro pfx rl st st2 h
    obtain ⟨name, child⟩ := kv
    unfold run_props at h
    cases hcall : rec child (if pfx ≠ "" then pfx ++ "." ++ name else name) (rl.contains name) st with
    | ok stm =>
      rw [hcall] at h
      exact fun x hx => ih _ _ _ _ h (hrec _ _ _ _ _ hcall hx)
    | refError e => rw [hcall] at h; cases h
    | outOfFuel => rw [hcall] at h; cases h

theorem collect_type_body_visited_mono (rec : SchemaNode → String → Bool → CState → CRes)
    (hrec : ∀ s p r st st2, rec s p r st = CRes.ok st2 → st.visited_refs ⊆ st2.visited_refs)
    (schema : SchemaNode) (pfx : String) (req : Bool) (st st2 : CState)
    (h : collect_type_body rec schema pfx req st = CRes.ok st2) :
    st.visited_refs ⊆ st2.visited_refs := by
  have hst1 : (if pfx ≠ "" then
      record_expected st pfx (schema_type schema) req schema.format schema.description
      else st).visited_refs = st.visited_refs := by
    split_ifs with hp
    · exact record_expected_visited _ _ _ _ _ _
    · rfl
  simp only [collect_type_body] at h
  by_cases ht : schema_type schema = "object"
  · have hta : (schema_type schema = "array") = False := by simp [ht]
    simp only [if_pos ht, hta, if_false] at h
    cases hrp : run_props rec (schema.properties.getD []) pfx (schema.required.getD [])
        (if pfx ≠ "" then
          record_expected st pfx (schema_type schema) req schema.format schema.description
          else st) with
    | refError e => simp only [hrp] at h; cases h
    | outOfFuel => simp only [hrp] at h; cases h
    | ok st2m =>
      simp only [hrp] at h
      have hm1 : st.visited_refs ⊆ st2m.visited_refs := by
        intro x hx
        refine run_props_visited_mono rec hrec _ _ _ _ _ hrp ?_
        rw [hst1]
        exact hx
      cases hap : schema.additionalProperties with
      | apTrue =>
        simp only [hap] at h
        injection h with h2
        subst h2
        intro x hx
        split_ifs with hp
        · exact hm1 hx
        · exact hm1 hx
      | apSchema ap =>
        simp only [hap] at h
        by_cases hp : pfx ≠ ""
        · rw [if_pos hp] at h
          cases hcall : rec ap (pfx ++ ".*") false
              (if pfx ≠ "" then { st2m with open_prefixes := sinsert pfx st2m.open_prefixes }
               else st2m) with
          | ok st4 =>
            simp only [hcall] at h
            injection h with h2
            subst h2
            intro x hx
            refine hrec _ _ _ _ _ hcall ?_
            rw [if_pos hp]
            exact hm1 hx
          | refError e => simp only [hcall] at h; cases h
          | outOfFuel => simp only [hcall] at h; cases h
        · rw [if_neg hp] at h
          injection h with h2
          subst h2
          intro x hx
          rw [if_neg hp]
          exact hm1 hx
      | absent =>
        simp only [hap] at h
        injection h with h2
        subst h2
        exact hm1
      | apFalse =>
        simp only [hap] at h
        injection h with h2
        subst h2
        exact hm1
      | apNull =>
        simp only [hap] at h
        injection h with h2
        subst h2
        exact hm1
  · simp only [if_neg ht] at h
    by_cases hta : schema_type schema = "array"
    · rw [if_pos hta] at h
      cases hit : schema.items with
      | some items =>
        simp only [hit] at h
        intro x hx
        refine hrec _ _ _ _ _ h ?_
        rw [hst1]
        exact hx
      | none =>
        simp only [hit] at h
        injection h with h2
        subst h2
        intro x hx
        rw [hst1]
        exact hx
    · rw [if_neg hta] at h
      injection h with h2
      subst h2
      intro x hx
      rw [hst1]
      exact hx

theorem cef_visited_mono : ∀ (fuel : Nat) (spec : List (String × SchemaNode))
    (schema : SchemaNode) (pfx : String) (req : Bool) (st st2 : CState),
    collect_expected_fields spec fuel schema pfx req st = CRes.ok st2 →
    st.visited_refs ⊆ st2.visited_refs := by
  intro fuel
  induction fuel with
  | zero => intro spec schema pfx req st st2 h; cases h
  | succ n ih =>
    intro spec schema pfx req st st2 h
    unfold collect_expected_fields at h
    cases href : schema.ref with
    | some ref =>
      simp only [href] at h
      by_cases hv : ref ∈ st.visited_refs
      · rw [if_pos hv] at h
        injection h with h2
        subst h2
        exact fun x hx => hx
      · rw [if_neg hv] at h
        cases hres : resolve_ref spec ref with
        | none => simp only [hres] at h; cases h
        | some resolved =>
          simp only [hres] at h
          intro x hx
          exact ih spec resolved pfx req _ st2 h (mem_sinsert_of_mem _ _ _ hx)
    | none =>
      simp only [href] at h
      cases hao : schema.allOf with
      | some subs =>
        simp only [hao] at h
        exact run_allOf_visited_mono _ (fun s p r a b => ih spec s p r a b) subs _ _ _ _ h
      | none =>
        simp only [hao] at h
        exact collect_type_body_visited_mono _ (fun s p r a b => ih spec s p r a b) _ _ _ _ _ h

theorem filter_length_mono {α : Type} (l : List α) (p q2 : α → Bool)
    (h : ∀ a, p a = true → q2 a = true) :
    (l.filter p).length ≤ (l.filter q2).length := by
  induction l with
  | nil => simp
  | cons a t ih =>
    rw [List.filter_cons, List.filter_cons]
    cases hp : p a with
    | true =>
      rw [h a hp]
      simp only [if_true, List.length_cons]
      omega
    | false =>
      simp only [Bool.false_eq_true, if_false]
      cases hq : q2 a with
      | true =>
        simp only [if_true, List.length_cons]
        omega
      | false =>
        simp only [Bool.false_eq_true, if_false]
        exact ih

theorem unvisited_mono (spec : List (String × SchemaNode)) (v1 v2 : List String)
    (h : v1 ⊆ v2) : unvisited spec v2 ≤ unvisited spec v1 := by
  unfold unvisited
  apply filter_length_mono
  intro a ha
  simp only [Bool.not_eq_true', decide_eq_false_iff_not] at ha ⊢
  exact fun hmem => ha (h hmem)

theorem cef_measure_mono_state (spec : List (String × SchemaNode)) (v1 v2 : List String)
    (n m : Nat) (hv : v1 ⊆ v2) (hnm : n ≤ m) :
    cef_measure spec v2 n ≤ cef_measure spec v1 m := by
  unfold cef_measure
  exact Nat.add_le_add (Nat.mul_le_mul_right _ (unvisited_mono spec v1 v2 hv)) hnm

theorem mem_sinsert_iff (x y : String) (s : List String) :
    y ∈ sinsert x s ↔ y ∈ s ∨ y = x := by
  unfold sinsert
  split_ifs with h
  · constructor
    · exact Or.inl
    · rintro (hy | hy)
      · exact hy
      · rw [hy]; exact h
  · simp [List.mem_append]

theorem filter_sinsert_lt (r : String) (visited : List String) (hr : r ∉ visited) :
    ∀ names : List String, r ∈ names →
      (names.filter (fun x => !(decide (x ∈ sinsert r visited)))).length <
      (names.filter (fun x => !(decide (x ∈ visited)))).length := by
  intro names
  induction names with
  | nil => intro h; cases h
  | cons a t ih =>
    intro hmem
    rw [List.filter_cons, List.filter_cons]
    by_cases ha : a = r
    · subst ha
      have h1 : (!(decide (a ∈ sinsert a visited))) = false := by
        simp [mem_sinsert_self]
      have h2 : (!(decide (a ∈ visited))) = true := by simp [hr]
      rw [h1, h2]
      simp only [Bool.false_eq_true, if_false, if_true, List.length_cons]
      have hle : (t.filter (fun x => !(decide (x ∈ sinsert a visited)))).length ≤
          (t.filter (fun x => !(decide (x ∈ visited)))).length := by
        apply filter_length_mono
        intro x hx
        simp only [Bool.not_eq_true', decide_eq_false_iff_not] at hx ⊢
        exact fun hmem2 => hx (mem_sinsert_of_mem _ _ _ hmem2)
      omega
    · have hpred : (!(decide (a ∈ sinsert r visited))) = (!(decide (a ∈ visited))) := by
        by_cases hv : a ∈ visited
        · simp [mem_sinsert_iff, hv]
        · simp [mem_sinsert_iff, hv, ha]
      rw [hpred]
      have hmem2 : r ∈ t := by
        rcases List.mem_cons.mp hmem with he | ht2
        · exact absurd he.symm ha
        · exact ht2
      cases hq : (!(decide (a ∈ visited))) with
      | false =>
        simp only [Bool.false_eq_true, if_false]
        exact ih hmem2
      | true =>
        simp only [if_true, List.length_cons]
        have := ih hmem2
        omega

theorem unvisited_insert_lt (spec : List (String × SchemaNode)) (visited : List String)
    (r : String) (hmem : r ∈ env_ref_names spec) (hr : r ∉ visited) :
    unvisited spec (sinsert r visited) < unvisited spec visited := by
  unfold unvisited
  exact filter_sinsert_lt r visited hr (env_ref_names spec) hmem

theorem dget_some_mem_names (spec : List (String × SchemaNode)) (r : String) (s : SchemaNode)
    (h : dget spec r = some s) : r ∈ env_ref_names spec := by
  induction spec with
  | nil => cases h
  | cons kv rest ih =>
    obtain ⟨k, v⟩ := kv
    unfold dget at h
    simp only [env_ref_names, List.map_cons]
    by_cases hk : k = r
    · subst hk
      exact List.mem_cons_self _ _
    · rw [if_neg hk] at h
      exact List.mem_cons_of_mem _ (ih h)

theorem dget_ssize_le (spec : List (String × SchemaNode)) (r : String) (s : SchemaNode)
    (h : dget spec r = some s) : ssize s ≤ maxEnvSize spec := by
  induction spec with
  | nil => cases h
  | cons kv rest ih =>
    obtain ⟨k, v⟩ := kv
    unfold dget at h
    simp only [maxEnvSize, List.map_cons, List.foldr_cons]
    by_cases hk : k = r
    · rw [if_pos hk] at h
      injection h with h2
      subst h2
      exact Nat.le_max_left _ _
    · rw [if_neg hk] at h
      exact le_trans (ih h) (Nat.le_max_right _ _)

theorem resolve_ref_some (spec : List (String × SchemaNode)) (r : String) (s : SchemaNode)
    (h : resolve_ref spec r = some s) : dget spec r = some s := by
  unfold resolve_ref at h
  split_ifs at h
  exact h

theorem run_allOf_no_fuel (spec : List (String × SchemaNode))
    (rec : SchemaNode → String → Bool → CState → CRes) (B : Nat)
    (hrecS : ∀ s p r st, cef_measure spec st.visited_refs (ssize s) < B →
      rec s p r st ≠ CRes.outOfFuel)
    (hrecM : ∀ s p r st st2, rec s p r st = CRes.ok st2 → st.visited_refs ⊆ st2.visited_refs) :
    ∀ (subs : List SchemaNode) (pfx : String) (req : Bool) (st : CState),
      cef_measure spec st.visited_refs (ssizeL subs) < B →
      run_allOf rec subs pfx req st ≠ CRes.outOfFuel := by
  intro subs
  induction subs with
  | nil =>
    intro pfx req st hmeas hc
    cases hc
  | cons sub rest ih =>
    intro pfx req st hmeas
    unfold run_allOf
    cases hcall : rec sub pfx req st with
    | ok stm =>
      simp only [hcall]
      apply ih
      have hsub_le : ssizeL rest ≤ ssizeL (sub :: rest) := by
        simp only [ssizeL]; omega
      exact lt_of_le_of_lt
        (cef_measure_mono_state spec _ _ _ _ (hrecM _ _ _ _ _ hcall) hsub_le) hmeas
    | refError e =>
      simp only [hcall]
      intro hc; cases hc
    | outOfFuel =>
      have hlt : cef_measure spec st.visited_refs (ssize sub) < B := by
        refine lt_of_le_of_lt
          (cef_measure_mono_state spec _ _ _ _ (fun x hx => hx) ?_) hmeas
        simp only [ssizeL]; omega
      exact absurd hcall (hrecS sub pfx req st hlt)

theorem run_props_no_fuel (spec : List (String × SchemaNode))
    (rec : SchemaNode → String → Bool → CState → CRes) (B : Nat)
    (hrecS : ∀ s p r st, cef_measure spec st.visited_refs (ssize s) < B →
      rec s p r st ≠ CRes.outOfFuel)
    (hrecM : ∀ s p r st st2, rec s p r st = CRes.ok st2 → st.visited_refs ⊆ st2.visited_refs) :
    ∀ (props : List (String × SchemaNode)) (pfx : String) (req_list : List String) (st : CState),
      cef_measure spec st.visited_refs (ssizePL props) < B →
      run_props rec props pfx req_list st ≠ CRes.outOfFuel := by
  intro props
  induction props with
  | nil =>
    intro pfx rl st hmeas hc
    cases hc
  | cons kv rest ih =>
    intro pfx rl st hmeas
    obtain ⟨name, child⟩ := kv
    unfold run_props
    cases hcall : rec child (if pfx ≠ "" then pfx ++ "." ++ name else name) (rl.contains name) st with
    | ok stm =>
      simp only [hcall]
      apply ih
      have hsub_le : ssizePL rest ≤ ssizePL ((name, child) :: rest) := by
        simp only [ssizePL]; omega
      exact lt_of_le_of_lt
        (cef_measure_mono_state spec _ _ _ _ (hrecM _ _ _ _ _ hcall) hsub_le) hmeas
    | refError e =>
      simp only [hcall]
      intro hc; cases hc
    | outOfFuel =>
      have hlt : cef_measure spec st.visited_refs (ssize child) < B := by
        refine lt_of_le_of_lt
          (cef_measure_mono_state spec _ _ _ _ (fun x hx => hx) ?_) hmeas
        simp only [ssizePL]; omega
      exact absurd hcall (hrecS child _ _ st hlt)

theorem collect_type_body_no_fuel (spec : List (String × SchemaNode))
    (rec : SchemaNode → String → Bool → CState → CRes) (B : Nat)
    (hrecS : ∀ s p r st, cef_measure spec st.visited_refs (ssize s) < B →
      rec s p r st ≠ CRes.outOfFuel)
    (hrecM : ∀ s p r st st2, rec s p r st = CRes.ok st2 → st.visited_refs ⊆ st2.visited_refs)
    (schema : SchemaNode) (pfx : String) (req : Bool) (st : CState)
    (hmeas : cef_measure spec st.visited_refs (ssize schema) ≤ B) :
    collect_type_body rec schema pfx req st ≠ CRes.outOfFuel := by
  have hst1v : (if pfx ≠ "" then
      record_expected st pfx (schema_type schema) req schema.format schema.description
      else st).visited_refs = st.visited_refs := by
    split_ifs with hp
    · exact record_expected_visited _ _ _ _ _ _
    · rfl
  simp only [collect_type_body]
  by_cases ht : schema_type schema = "object"
  · have hta : (schema_type schema = "array") = False := by simp [ht]
    simp only [if_pos ht, hta, if_false]
    have hrp_meas : cef_measure spec
        (if pfx ≠ "" then
          record_expected st pfx (schema_type schema) req schema.format schema.description
          else st).visited_refs (ssizePL (schema.properties.getD [])) < B := by
      rw [hst1v]
      refine lt_of_lt_of_le ?_ hmeas
      unfold cef_measure
      exact Nat.add_lt_add_left (ssize_props_getD_lt schema) _
    cases hrp : run_props rec (schema.properties.getD []) pfx (schema.required.getD [])
        (if pfx ≠ "" then
          record_expected st pfx (schema_type schema) req schema.format schema.description
          else st) with
    | outOfFuel => exact absurd hrp (run_props_no_fuel spec rec B hrecS hrecM _ _ _ _ hrp_meas)
    | refError e =>
      simp only [hrp]
      intro hc; cases hc
    | ok st2m =>
      simp only [hrp]
      have hsub : st.visited_refs ⊆ st2m.visited_refs := by
        intro x hx
        refine run_props_visited_mono rec hrecM _ _ _ _ _ hrp ?_
        rw [hst1v]
        exact hx
      cases hap : schema.additionalProperties with
      | apTrue =>
        intro hc
        split_ifs at hc
      | absent =>
        intro hc; cases hc
      | apFalse =>
        intro hc; cases hc
      | apNull =>
        intro hc; cases hc
      | apSchema ap =>
        by_cases hp : pfx ≠ ""
        · simp only [if_pos hp]
          have hm3 : cef_measure spec
              ({ st2m with open_prefixes := sinsert pfx st2m.open_prefixes } : CState).visited_refs
              (ssize ap) < B := by
            refine lt_of_le_of_lt
              (cef_measure_mono_state spec _ _ _ _ hsub (le_refl _)) ?_
            refine lt_of_lt_of_le ?_ hmeas
            unfold cef_measure
            exact Nat.add_lt_add_left (ssize_ap_lt schema ap hap) _
          cases hcall : rec ap (pfx ++ ".*") false
              { st2m with open_prefixes := sinsert pfx st2m.open_prefixes } with
          | ok st4 =>
            simp only [hcall]
            intro hc; cases hc
          | refError e =>
            simp only [hcall]
            intro hc; cases hc
          | outOfFuel => exact absurd hcall (hrecS ap _ false _ hm3)
        · simp only [if_neg hp]
          intro hc; cases hc
  · simp only [if_neg ht]
    by_cases hta : schema_type schema = "array"
    · simp only [if_pos hta]
      cases hit : schema.items with
      | some items =>
        simp only [hit]
        have hm4 : cef_measure spec
            (if pfx ≠ "" then
              record_expected st pfx (schema_type schema) req schema.format schema.description
              else st).visited_refs (ssize items) < B := by
          rw [hst1v]
          refine lt_of_lt_of_le ?_ hmeas
          unfold cef_measure
          exact Nat.add_lt_add_left (ssize_items_lt schema items hit) _
        exact hrecS items _ false _ hm4
      | none =>
        simp only [hit]
        intro hc; cases hc
    · simp only [if_neg hta]
      intro hc; cases hc

/-- C4: for every specification document (including documents whose local
references form a cycle, such as A referencing B referencing A) and every
schema node, the embedded `collect_expected_fields` walk completes whenever
its fuel exceeds the explicit measure `cef_measure` — the number of not yet
visited references times one plus the largest schema bound in the document,
plus the size of the node.  Since the source recursion is exactly this walk
without fuel, the walk terminates on reference cycles and its `out` map is
a finite association list. -/
theorem c4_termination : ∀ (fuel : Nat) (spec : List (String × SchemaNode))
    (schema : SchemaNode) (pfx : String) (req : Bool) (st : CState),
    cef_measure spec st.visited_refs (ssize schema) < fuel →
    collect_expected_fields spec fuel schema pfx req st ≠ CRes.outOfFuel := by
  intro fuel
  induction fuel with
  | zero =>
    intro spec schema pfx req st h
    exact absurd h (Nat.not_lt_zero _)
  | succ n ih =>
    intro spec schema pfx req st hmeas
    unfold collect_expected_fields
    cases href : schema.ref with
    | some ref =>
      simp only [href]
      by_cases hv : ref ∈ st.visited_refs
      · simp only [if_pos hv]
        intro hc; cases hc
      · simp only [if_neg hv]
        cases hres : resolve_ref spec ref with
        | none =>
          simp only [hres]
          intro hc; cases hc
        | some resolved =>
          simp only [hres]
          apply ih
          show cef_measure spec (sinsert ref st.visited_refs) (ssize resolved) < n
          have hd : dget spec ref = some resolved := resolve_ref_some spec ref resolved hres
          have hnm : ref ∈ env_ref_names spec := dget_some_mem_names _ _ _ hd
          have hu : unvisited spec (sinsert ref st.visited_refs) < unvisited spec st.visited_refs :=
            unvisited_insert_lt spec st.visited_refs ref hnm hv
          have hs : ssize resolved ≤ maxEnvSize spec := dget_ssize_le _ _ _ hd
          unfold cef_measure at hmeas ⊢
          have step1 : unvisited spec (sinsert ref st.visited_refs) * (1 + maxEnvSize spec) +
              ssize resolved <
              (unvisited spec (sinsert ref st.visited_refs) + 1) * (1 + maxEnvSize spec) := by
            have h2 : ssize resolved < 1 + maxEnvSize spec := by omega
            calc unvisited spec (sinsert ref st.visited_refs) * (1 + maxEnvSize spec) +
                ssize resolved
                < unvisited spec (sinsert ref st.visited_refs) * (1 + maxEnvSize spec) +
                  (1 + maxEnvSize spec) := Nat.add_lt_add_left h2 _
              _ = (unvisited spec (sinsert ref st.visited_refs) + 1) * (1 + maxEnvSize spec) := by
                  ring
          have step2 : (unvisited spec (sinsert ref st.visited_refs) + 1) *
              (1 + maxEnvSize spec) ≤
              unvisited spec st.visited_refs * (1 + maxEnvSize spec) :=
            Nat.mul_le_mul_right _ hu
          have step3 : unvisited spec st.visited_refs * (1 + maxEnvSize spec) ≤
              unvisited spec st.visited_refs * (1 + maxEnvSize spec) + ssize schema :=
            Nat.le_add_right _ _
          exact lt_of_lt_of_le (lt_of_lt_of_le step1 (le_trans step2 step3))
            (Nat.le_of_lt_succ hmeas)
    | none =>
      simp only [href]
      cases hao : schema.allOf with
      | some subs =>
        simp only [hao]
        refine run_allOf_no_fuel spec (collect_expected_fields spec n) n
          (fun s p r st0 hm => ih spec s p r st0 hm)
          (fun s p r a b hh => cef_visited_mono n spec s p r a b hh)
          subs pfx req st ?_
        have h1 : cef_measure spec st.visited_refs (ssizeL subs) <
            cef_measure spec st.visited_refs (ssize schema) := by
          unfold cef_measure
          exact Nat.add_lt_add_left (ssize_allOf_lt schema subs hao) _
        exact lt_of_lt_of_le h1 (Nat.le_of_lt_succ hmeas)
      | none =>
        simp only [hao]
        exact collect_type_body_no_fuel spec (collect_expected_fields spec n) n
          (fun s p r st0 hm => ih spec s p r st0 hm)
          (fun s p r a b hh => cef_visited_mono n spec s p r a b hh)
          schema pfx req st (Nat.le_of_lt_succ hmeas)

/-- C4 witness: for the cyclic document (A references B references A)
the measure bound is met at fuel 1000 and the walk completes. -/
theorem c4_witness :
    cef_measure c4_env cstate0.visited_refs (ssize c4_root) < 1000 ∧
    collect_expected_fields c4_env 1000 c4_root "" false cstate0 ≠ CRes.outOfFuel :=
  ⟨by decide, c4_termination 1000 c4_env c4_root "" false cstate0 (by decide)⟩
